import Mathlib

/-!
Formal model of the local document indexing and retrieval engine implemented in
gpt4all-chat/database.cpp.  Pure computations are translated directly; the
SQLite tables become in-memory lists of typed rows, the SQL transaction becomes
an explicit database snapshot, the hnswlib vector index becomes a list of keys,
and the external world (filesystem, PDF library, SQL engine failures, FTS
engine) is passed in as explicit data.  GUI progress bookkeeping
(CollectionItem updates, signal emission) has no effect on the two durable
stores and is elided.
-/

/-- Whitespace test used both by QTextStream word extraction and by the
QRegularExpression whitespace class in database.cpp (ASCII whitespace). -/
def isSpc (c : Char) : Bool :=
  c = ' ' || c = '\n' || c = '\t' || c = '\r'

/-- One `stream >> word` step of QTextStream: skip leading whitespace, read the
maximal run of non-whitespace characters, leave the rest of the stream
(trailing whitespace not consumed).  Returns the word and the rest. -/
def readWord (s : List Char) : List Char × List Char :=
  let s1 := s.dropWhile isSpc
  (s1.takeWhile (fun c => !(isSpc c)), s1.dropWhile (fun c => !(isSpc c)))

theorem length_dropWhile_le (p : Char → Bool) (l : List Char) :
    (l.dropWhile p).length ≤ l.length := by
  induction l with
  | nil => simp [List.dropWhile]
  | cons a t ih =>
    by_cases h : p a
    · simp [List.dropWhile_cons, h]
      omega
    · simp [List.dropWhile_cons, h]

theorem dropWhile_head_not (p : Char → Bool) (l : List Char) :
    ∀ a t, l.dropWhile p = a :: t → p a = false := by
  induction l with
  | nil => intro a t h; simp [List.dropWhile] at h
  | cons b l' ih =>
    intro a t h
    by_cases hb : p b
    · rw [List.dropWhile_cons_of_pos hb] at h
      exact ih a t h
    · rw [List.dropWhile_cons_of_neg hb] at h
      cases h
      simpa using hb

theorem readWord_rest_lt (s : List Char) (h : s ≠ []) :
    (readWord s).2.length < s.length := by
  induction s with
  | nil => exact absurd rfl h
  | cons a t ih =>
    by_cases ha : isSpc a
    · simp only [readWord, List.dropWhile_cons_of_pos ha]
      rcases Decidable.em (t = []) with ht | ht
      · subst ht; simp [List.dropWhile]
      · have := ih ht
        simp only [readWord] at this
        calc ((t.dropWhile isSpc).dropWhile fun c => !(isSpc c)).length
            < t.length := this
          _ < (a :: t).length := by simp
    · simp only [readWord, List.dropWhile_cons_of_neg ha, List.dropWhile_cons]
      simp only [ha, Bool.not_false, if_true]
      have := length_dropWhile_le (fun c => !(isSpc c)) t
      simp only [List.length_cons]
      omega

/-- Structural helper for wordsOf: the fuel bounds the number of reads, and
any fuel of at least the stream length is exact (each read consumes at least
one character). -/
def wordsOfAux : Nat → List Char → List String
  | 0, _ => []
  | fuel + 1, s =>
    if s.isEmpty then []
    else
      (if (readWord s).1.isEmpty then [] else [String.mk (readWord s).1]) ++
        wordsOfAux fuel (readWord s).2

/-- Words of a character stream: the whitespace-delimited non-empty tokens, in
order.  This is the reference notion of word used by the chunker claims. -/
def wordsOf (s : List Char) : List String := wordsOfAux s.length s

/-- Join a word buffer with single spaces, as `words.join(" ")` does. -/
def joinSp (ws : List String) : String := String.intercalate " " ws

/-- Record of one chunk emission inside Database::chunkStream: the emitted
text, the word buffer it was built from, the running character count at the
moment of emission, and whether the stream was at end at that moment. -/
structure EmitRec where
  text : String
  wordsBuf : List String
  charCount : Nat
  atEnd : Bool
  deriving DecidableEq, Repr

/-- Core loop of Database::chunkStream (database.cpp lines 843-885), with the
database insert and embedding-buffer side effects factored out (they do not
influence the control flow: a failed insert is only logged).  Arguments mirror
the local state of the C++ loop: the remaining stream, the running character
count, the word buffer and the number of chunks emitted so far.  Returns the
emission records in order together with the unconsumed rest of the stream
(from which the final stream position is recovered). -/
def chunkCoreAux : Nat → Int → Nat → List Char → Nat → List String → Nat →
    List EmitRec × List Char
  | 0, _, _, s, _, _, _ => ([], s)
  | fuel + 1, chunkSize, maxChunks, s, charCount, words, chunks =>
    if s.isEmpty then ([], s)
    else
      let w := (readWord s).1
      let rest := (readWord s).2
      let charCount2 := charCount + w.length
      let words2 := if w.isEmpty then words else words ++ [String.mk w]
      if (charCount2 : Int) + (words2.length : Int) - 1 ≥ chunkSize ∨ rest.isEmpty then
        let e : EmitRec := ⟨joinSp words2, words2, charCount2, rest.isEmpty⟩
        if maxChunks > 0 ∧ chunks + 1 = maxChunks then ([e], rest)
        else
          let r := chunkCoreAux fuel chunkSize maxChunks rest 0 [] (chunks + 1)
          (e :: r.1, r.2)
      else
        chunkCoreAux fuel chunkSize maxChunks rest charCount2 words2 chunks

/-- Entry point of the chunkStream loop: the fuel is the stream length, which
every read respects (each read consumes at least one character), so the fueled
recursion is exact. -/
def chunkCore (chunkSize : Int) (maxChunks : Nat) (s : List Char) (charCount : Nat)
    (words : List String) (chunks : Nat) : List EmitRec × List Char :=
  chunkCoreAux s.length chunkSize maxChunks s charCount words chunks

/-- Qt QString::split on the whitespace regular expression without
Qt::SkipEmptyParts, as used to compute N_WORDS in selectChunk (database.cpp
line 278): tokens between maximal whitespace runs, keeping the empty leading
and trailing tokens that Qt produces. -/
def qtSplitWsAux : Nat → List Char → List String
  | 0, s => [String.mk (s.takeWhile (fun c => !(isSpc c)))]
  | fuel + 1, s =>
    let w := s.takeWhile (fun c => !(isSpc c))
    let rest := s.dropWhile (fun c => !(isSpc c))
    if rest.isEmpty then [String.mk w]
    else String.mk w :: qtSplitWsAux fuel (rest.dropWhile isSpc)

/-- Entry point: the fuel is the input length; each round consumes at least
one character, so the fueled recursion is exact. -/
def qtSplitWs (s : List Char) : List String := qtSplitWsAux s.length s

/-- Qt QString::split on whitespace with Qt::SkipEmptyParts (database.cpp line
248): same as above with the empty tokens removed. -/
def splitSkipEmpty (s : List Char) : List String :=
  (qtSplitWs s).filter (fun w => !(w.isEmpty))

/-- Punctuation class removed by generateGrams (database.cpp line 242). -/
def punctChars : List Char :=
  ['.', ',', ';', ':', '!', '?', '\'', '"', '(', ')', '-']

/-- QString::remove of the punctuation class. -/
def removePunct (s : List Char) : List Char :=
  s.filter (fun c => !(punctChars.contains c))

/-- Model of generateGrams (database.cpp lines 239-261): strip punctuation,
split into words skipping empties, clamp N to the word count, and render every
overlapping N-gram as a NEAR phrase.  The loop bound follows the C++ signed
arithmetic: when the cleaned input has no words the clamped N is 0 and the loop
still runs once, producing the (malformed) phrase NEAR(, 0). -/
def generateGrams (input : List Char) (N : Nat) : List String :=
  let words := splitSkipEmpty (removePunct input)
  let n := min words.length N
  let bound := ((words.length : Int) - ((n : Int) - 1)).toNat
  (List.range bound).map (fun i =>
    "NEAR(" ++
      String.intercalate " "
        ((List.range n).map (fun j => "\"" ++ words.getD (i + j) "" ++ "\"")) ++
      ", " ++ toString n ++ ")")

/-- An FTS5 query as issued by the sparse fallback of selectChunk: the rendered
MATCH expression (the OR-joined NEAR phrases), the collection names
interpolated into the SQL, and the LIMIT.  The fixed SQL template also orders
by bm25(chunks_fts); the external SQL engine is abstracted as an oracle from
queries to chunk-id hit lists (already bm25-ordered and limited). -/
structure FtsQuery where
  matchExpr : String
  collections : List String
  lim : Nat
  deriving DecidableEq, Repr

/-- The query issued by one iteration of the selectChunk loop. -/
def mkNgramQuery (text : String) (N : Nat) (colls : List String) (k : Nat) : FtsQuery :=
  { matchExpr := String.intercalate " OR " (generateGrams text.data N)
    collections := colls
    lim := k }

/-- Descending-N loop of the sparse selectChunk overload (database.cpp lines
279-297): for N from the raw token count down to 3, run the query and return
the rows of the first N with a hit; with no hit anywhere (or a token count
below 3) the cursor holds no rows. -/
def selectChunkLoop (oracle : FtsQuery → List Int) (colls : List String)
    (text : String) (k : Nat) : Nat → List Int
  | 0 => []
  | n + 1 =>
    if n + 1 > 2 then
      let rows := oracle (mkNgramQuery text (n + 1) colls k)
      if rows.isEmpty then selectChunkLoop oracle colls text k n
      else rows
    else []

/-- Sparse-fallback retrieval entry point (database.cpp lines 275-299): count
the raw whitespace-split tokens of the query text (empty tokens included) and
run the descending-N loop from that count. -/
def selectChunkText (oracle : FtsQuery → List Int) (colls : List String)
    (text : String) (k : Nat) : List Int :=
  selectChunkLoop oracle colls text k (qtSplitWs text.data).length

/-- Row of the chunks table (database.cpp CHUNKS_SQL, lines 57-62). -/
structure ChunkRow where
  document_id : Int
  chunk_id : Int
  chunk_text : String
  file : String
  title : String
  author : String
  subject : String
  keywords : String
  page : Int
  line_from : Int
  line_to : Int
  words : Nat
  tokens : Nat
  has_embedding : Bool
  deriving DecidableEq, Repr

/-- Row of the chunks_fts virtual table (FTS_CHUNKS_SQL, lines 64-67). -/
structure FtsChunkRow where
  document_id : Int
  chunk_id : Int
  chunk_text : String
  file : String
  title : String
  author : String
  subject : String
  keywords : String
  page : Int
  line_from : Int
  line_to : Int
  deriving DecidableEq, Repr

/-- Row of the documents table (DOCUMENTS_SQL, lines 526-528). -/
structure DocumentRow where
  id : Int
  folder_id : Int
  document_time : Int
  document_path : String
  deriving DecidableEq, Repr

/-- Row of the folders table (FOLDERS_SQL, lines 458-460). -/
structure FolderRow where
  id : Int
  folder_path : String
  deriving DecidableEq, Repr

/-- Row of the collections table (COLLECTIONS_SQL, lines 309-311). -/
structure CollectionRow where
  collection_name : String
  folder_id : Int
  last_update_time : Int
  embedding_model : String
  force_indexing : Bool
  deriving DecidableEq, Repr

/-- The relational store: the five tables plus the autoincrement counters that
SQLite maintains for chunk ids and document ids. -/
structure DbState where
  folders : List FolderRow
  documents : List DocumentRow
  chunks : List ChunkRow
  chunks_fts : List FtsChunkRow
  collections : List CollectionRow
  nextChunkId : Int
  nextDocId : Int
  deriving DecidableEq, Repr

/-- Observable events on the two durable stores, in program order.  dbWrite is
any mutation of a relational table; the tx events delimit the SQL transaction;
the vec events are mutations and persistence of the external vector index;
embedDispatch marks a batch handed to the asynchronous embedder. -/
inductive Event where
  | dbWrite
  | txBegin
  | txCommit
  | txRollback
  | vecRemove (chunk_id : Int)
  | vecAdd (chunk_id : Int)
  | vecSave
  | embedDispatch
  deriving DecidableEq, Repr

/-- An EmbeddingChunk buffered for the asynchronous embedder (database.h). -/
structure EmbeddingChunk where
  folder_id : Int
  chunk_id : Int
  chunk : String
  deriving DecidableEq, Repr

/-- One embedding result delivered by the embedder callback (database.h): the
vector itself is opaque to the engine, so it is modelled as an abstract list. -/
structure EmbeddingResult where
  folder_id : Int
  chunk_id : Int
  embedding : List Int
  deriving DecidableEq, Repr

/-- Outcome of one addChunk call: whether the chunks INSERT succeeds and
whether the subsequent chunks_fts INSERT succeeds (the SQL engine may fail
either; both are external). -/
structure ChunkInsOut where
  insertOk : Bool
  ftsOk : Bool
  deriving DecidableEq, Repr

/-- Externally determined outcomes of the SQL statements a single
scanQueue pass may run; prepare/exec failures of the SQL engine are inputs to
the model.  chunkOuts is consumed positionally by the chunk inserts, defaulting
to success. -/
structure DbOps where
  selectDocOk : Bool
  getChunksOk : Bool
  removeChunksOk : Bool
  updateDocOk : Bool
  addDocOk : Bool
  chunkOuts : List ChunkInsOut
  deriving DecidableEq, Repr

/-- What kind of file a queued document is, together with the data the
external world (PDF library or filesystem) supplies for it. -/
inductive DocKind where
  | pdf (loadOk : Bool) (pageCount : Nat) (pages : List String)
      (title author subject keywords : String)
  | txt (openOk seekOk : Bool) (content : String)
  deriving DecidableEq, Repr

/-- Snapshot of the filesystem metadata of a queued document (QFileInfo after
stat), its contents, and the SQL outcomes for its processing. -/
structure DocEnv where
  exists_ : Bool
  readable : Bool
  mtimeMs : Int
  canonicalPath : String
  fileName : String
  size : Nat
  kind : DocKind
  ops : DbOps
  deriving DecidableEq, Repr

/-- DocumentInfo from database.h: the per-document queue entry. -/
structure DocumentInfo where
  folder : Int
  env : DocEnv
  currentPage : Nat
  currentPosition : Nat
  currentlyProcessing : Bool
  deriving DecidableEq, Repr

/-- Whole engine state: relational DB, open transaction snapshot (SQLite
rollback journal), vector index keys, scan queue map folder_id to FIFO queue,
embedding buffer, configured chunk size and the event trace. -/
structure SysState where
  db : DbState
  pendingTx : Option DbState
  vec : List Int
  docsToScan : List (Int × List DocumentInfo)
  chunkList : List EmbeddingChunk
  chunkSize : Int
  trace : List Event
  deriving DecidableEq, Repr

/-- Database::transaction (database.cpp line 617): open a transaction by
snapshotting the relational store. -/
def txBegin (s : SysState) : SysState :=
  { s with pendingTx := some s.db, trace := s.trace ++ [.txBegin] }

/-- Database::commit (line 623): close the transaction keeping the changes. -/
def txCommit (s : SysState) : SysState :=
  { s with pendingTx := none, trace := s.trace ++ [.txCommit] }

/-- Database::rollback (line 629): close the transaction restoring the
snapshot. -/
def txRollback (s : SysState) : SysState :=
  { s with db := s.pendingTx.getD s.db, pendingTx := none,
           trace := s.trace ++ [.txRollback] }

/-- Queue map lookup (QMap::value with default empty queue). -/
def qGet (m : List (Int × List DocumentInfo)) (k : Int) : List DocumentInfo :=
  match m.find? (fun e => e.1 = k) with
  | some e => e.2
  | none => []

/-- Queue map contains (QMap::contains). -/
def qContains (m : List (Int × List DocumentInfo)) (k : Int) : Bool :=
  m.any (fun e => e.1 = k)

/-- Queue map update: replace the bucket of an existing key, else append. -/
def qSet (m : List (Int × List DocumentInfo)) (k : Int) (v : List DocumentInfo) :
    List (Int × List DocumentInfo) :=
  match m with
  | [] => [(k, v)]
  | e :: rest => if e.1 = k then (k, v) :: rest else e :: qSet rest k v

/-- Queue map erase (QMap::remove). -/
def qErase (m : List (Int × List DocumentInfo)) (k : Int) :
    List (Int × List DocumentInfo) :=
  m.filter (fun e => !(e.1 = k))

/-- Smallest key of the queue map (QMap::firstKey iterates keys in order). -/
def qMinKey (m : List (Int × List DocumentInfo)) : Option Int :=
  match m with
  | [] => none
  | e :: rest =>
    match qMinKey rest with
    | none => some e.1
    | some k => some (min e.1 k)

/-- Database::countOfDocuments (lines 967-972). -/
def countOfDocuments (s : SysState) (folder_id : Int) : Nat :=
  (qGet s.docsToScan folder_id).length

/-- Database::dequeueDocument (lines 985-995): take the head of the first
(smallest-key) non-empty folder queue, dropping the bucket when it empties.
Returns none when the map is empty (the C++ asserts non-emptiness). -/
def dequeueDoc (s : SysState) : Option (DocumentInfo × SysState) :=
  match qMinKey s.docsToScan with
  | none => none
  | some k =>
    match qGet s.docsToScan k with
    | [] => none
    | info :: rest =>
      let m := if rest.isEmpty then qErase s.docsToScan k else qSet s.docsToScan k rest
      some (info, { s with docsToScan := m })

/-- Database::enqueueDocumentInternal (lines 1005-1014). -/
def enqueueDocumentInternal (info : DocumentInfo) (prepend : Bool) (s : SysState) :
    SysState :=
  let k := info.folder
  let bucket := qGet s.docsToScan k
  let bucket2 := if prepend then info :: bucket else bucket ++ [info]
  { s with docsToScan := qSet s.docsToScan k bucket2 }

/-- Database::removeFolderFromDocumentQueue (lines 997-1003; the GUI removal
is elided). -/
def removeFolderFromDocumentQueue (folder_id : Int) (s : SysState) : SysState :=
  if qContains s.docsToScan folder_id then
    { s with docsToScan := qErase s.docsToScan folder_id }
  else s

/-- Database::sendChunkList (lines 905-908): hand the buffered chunks to the
asynchronous embedder and clear the buffer. -/
def sendChunkList (s : SysState) : SysState :=
  { s with chunkList := [], trace := s.trace ++ [.embedDispatch] }

/-- Fixed embedding batch size s_batchSize (line 35). -/
def sBatchSize : Nat := 100

/-- Database::appendChunk (lines 897-903). -/
def appendChunk (c : EmbeddingChunk) (s : SysState) : SysState :=
  let s2 := { s with chunkList := s.chunkList ++ [c] }
  if s2.chunkList.length ≥ sBatchSize then sendChunkList s2 else s2

/-- Database::scheduleNext (lines 811-821): update progress (elided) and, when
no documents remain for the folder, flush the embedding buffer. -/
def scheduleNext (_folder_id : Int) (countForFolder : Nat) (s : SysState) : SysState :=
  if countForFolder = 0 then sendChunkList s else s

/-- Effect of one addChunk call (database.cpp lines 133-177) on the stores for
an emitted chunk with the given text and word count: on INSERT success the
chunks row is created under a fresh autoincrement id and, if the FTS INSERT
also succeeds, so is the mirror chunks_fts row; on INSERT failure nothing is
written and the C++ chunk_id out-parameter keeps its initial value 0.
Returns the state and the chunk id passed on to the embedding buffer. -/
def addChunkOp (out : ChunkInsOut) (document_id : Int)
    (chunk_text file title author subject keywords : String) (page : Int)
    (wordCount : Nat) (s : SysState) : SysState × Int :=
  if out.insertOk then
    let cid := s.db.nextChunkId
    let row : ChunkRow :=
      { document_id := document_id, chunk_id := cid, chunk_text := chunk_text
        file := file, title := title, author := author, subject := subject
        keywords := keywords, page := page, line_from := -1, line_to := -1
        words := wordCount, tokens := 0, has_embedding := false }
    let s := { s with
      db := { s.db with chunks := s.db.chunks ++ [row], nextChunkId := cid + 1 }
      trace := s.trace ++ [.dbWrite] }
    let s :=
      if out.ftsOk then
        let frow : FtsChunkRow :=
          { document_id := document_id, chunk_id := cid, chunk_text := chunk_text
            file := file, title := title, author := author, subject := subject
            keywords := keywords, page := page, line_from := -1, line_to := -1 }
        { s with db := { s.db with chunks_fts := s.db.chunks_fts ++ [frow] }
                 trace := s.trace ++ [.dbWrite] }
      else s
    (s, cid)
  else (s, 0)

/-- Side effects of one emission inside Database::chunkStream: insert the
chunk (failures only logged, with the chunk id left 0 on a failed insert),
then append it to the embedding buffer.  Line bookkeeping is the constant -1
and the GUI totals are elided. -/
def chunkEmitStep (outs : List ChunkInsOut) (folder_id document_id : Int)
    (file title author subject keywords : String) (page : Int)
    (st : SysState) (p : Nat × EmitRec) : SysState :=
  let out := outs.getD p.1 ⟨true, true⟩
  let ac := addChunkOp out document_id p.2.text file title author subject
    keywords page p.2.wordsBuf.length st
  appendChunk ⟨folder_id, ac.2, p.2.text⟩ ac.1

/-- Database::chunkStream (lines 829-895), effectful part: run the pure
emission loop on the stream, then apply chunkEmitStep for each emission in
order.  Returns the state and the number of characters consumed from the
stream (the stream position delta). -/
def chunkStreamDb (s : SysState) (outs : List ChunkInsOut)
    (folder_id document_id : Int) (file title author subject keywords : String)
    (page : Int) (maxChunks : Nat) (input : List Char) : SysState × Nat :=
  let r := chunkCore s.chunkSize maxChunks input 0 [] 0
  let s2 := (r.1.enum).foldl
    (chunkEmitStep outs folder_id document_id file title author subject keywords page) s
  (s2, input.length - r.2.length)

/-- Result of one Database::scanQueue pass: the boolean the C++ returns, or a
crash for undefined behaviour (the division by zero reachable in the PDF
branch). -/
inductive ScanOutcome where
  | ok (success : Bool)
  | crash
  deriving DecidableEq, Repr

/-- File-kind dispatch of Database::scanQueue (lines 1136-1212).  In the PDF
branch the C++ computes bytes / doc.pageCount() before touching the page, so a
page count of zero is an integer division by zero: undefined behaviour,
modelled as a crash.  getAllText on an out-of-range page index yields an empty
selection.  GUI byte accounting is elided.  The PDF call to chunkStream leaves
maxChunks at its non-positive default (header default, cap disabled). -/
def scanDispatch (info : DocumentInfo) (s : SysState) (folder_id : Int)
    (countForFolder : Nat) (document_id : Int) (ctr : List Int) :
    ScanOutcome × SysState × List Int :=
  match info.env.kind with
  | .pdf loadOk pageCount pages title author subject keywords =>
    if !loadOk then (.ok false, scheduleNext folder_id countForFolder s, ctr)
    else if pageCount = 0 then (.crash, s, ctr)
    else
      let pageIndex := info.currentPage
      let text := pages.getD pageIndex ""
      let s := (chunkStreamDb s info.env.ops.chunkOuts info.folder document_id
        info.env.fileName title author subject keywords ((pageIndex : Int) + 1)
        0 text.data).1
      if info.currentPage < pageCount then
        let info2 := { info with currentPage := info.currentPage + 1,
                                 currentlyProcessing := true }
        let s := enqueueDocumentInternal info2 true s
        (.ok true, scheduleNext folder_id (countForFolder + 1) s, ctr)
      else
        (.ok true, scheduleNext folder_id countForFolder s, ctr)
  | .txt openOk seekOk content =>
    if !openOk then (.ok false, scheduleNext folder_id countForFolder s, ctr)
    else if !seekOk then (.ok false, scheduleNext folder_id countForFolder s, ctr)
    else
      let bytes := info.env.size
      let byteIndex := info.currentPosition
      let r := chunkStreamDb s info.env.ops.chunkOuts info.folder document_id
        info.env.fileName "" "" "" "" (-1) 100 (content.data.drop byteIndex)
      let pos := byteIndex + r.2
      if info.currentPosition < bytes then
        let info2 := { info with currentPosition := pos,
                                 currentlyProcessing := true }
        let s2 := enqueueDocumentInternal info2 true r.1
        (.ok true, scheduleNext folder_id (countForFolder + 1) s2, ctr)
      else
        (.ok true, scheduleNext folder_id countForFolder r.1, ctr)

/-- Document-row upsert section of Database::scanQueue (lines 1112-1134):
skipped entirely for a resumed (currently processing) document; otherwise
update document_time for an existing row or insert a new row.  Falls through
to the file-kind dispatch. -/
def scanUpsert (info : DocumentInfo) (s : SysState) (folder_id : Int)
    (countForFolder : Nat) (existing_id : Int) (document_time : Int)
    (document_path : String) (ctr : List Int) : ScanOutcome × SysState × List Int :=
  if !info.currentlyProcessing then
    if existing_id ≠ -1 then
      if !info.env.ops.updateDocOk then
        (.ok false, scheduleNext folder_id countForFolder s, ctr)
      else
        let s := { s with
          db := { s.db with documents := s.db.documents.map (fun d =>
            if d.id = existing_id then { d with document_time := document_time }
            else d) }
          trace := s.trace ++ [.dbWrite] }
        scanDispatch info s folder_id countForFolder existing_id ctr
    else
      if !info.env.ops.addDocOk then
        (.ok false, scheduleNext folder_id countForFolder s, ctr)
      else
        let did := s.db.nextDocId
        let s := { s with
          db := { s.db with
            documents := s.db.documents ++
              [{ id := did, folder_id := folder_id,
                 document_time := document_time,
                 document_path := document_path }]
            nextDocId := did + 1 }
          trace := s.trace ++ [.dbWrite] }
        scanDispatch info s folder_id countForFolder did ctr
  else
    scanDispatch info s folder_id countForFolder existing_id ctr

/-- Database::scanQueue (lines 1059-1213): dequeue one document, skip it if
the file vanished or is unreadable, look it up by canonical path, skip when
mtime is unchanged (and not resuming), otherwise schedule its stale chunks for
removal and delete their rows, upsert the documents row and dispatch on file
kind.  Any reported SQL failure returns false after scheduling the next
document. -/
def scanQueue (s0 : SysState) (chunksToRemove : List Int) :
    ScanOutcome × SysState × List Int :=
  match dequeueDoc s0 with
  | none => (.ok true, s0, chunksToRemove)
  | some (info, s) =>
    let folder_id := info.folder
    let countForFolder := countOfDocuments s folder_id
    if !(info.env.exists_ && info.env.readable) then
      (.ok true, scheduleNext folder_id countForFolder s, chunksToRemove)
    else
      let document_time := info.env.mtimeMs
      let document_path := info.env.canonicalPath
      if !info.env.ops.selectDocOk then
        (.ok false, scheduleNext folder_id countForFolder s, chunksToRemove)
      else
        match s.db.documents.find? (fun d => d.document_path = document_path) with
        | some d =>
          if !info.currentlyProcessing then
            if document_time = d.document_time then
              (.ok true, scheduleNext folder_id countForFolder s, chunksToRemove)
            else if !info.env.ops.getChunksOk then
              (.ok false, scheduleNext folder_id countForFolder s, chunksToRemove)
            else
              let ctr := chunksToRemove ++
                ((s.db.chunks.filter (fun c => c.document_id = d.id)).map
                  (fun c => c.chunk_id))
              if !info.env.ops.removeChunksOk then
                (.ok false, scheduleNext folder_id countForFolder s, ctr)
              else
                let s := { s with
                  db := { s.db with
                    chunks := s.db.chunks.filter (fun c => !(c.document_id = d.id))
                    chunks_fts := s.db.chunks_fts.filter
                      (fun c => !(c.document_id = d.id)) }
                  trace := s.trace ++ [.dbWrite] }
                scanUpsert info s folder_id countForFolder d.id document_time
                  document_path ctr
          else
            scanUpsert info s folder_id countForFolder d.id document_time
              document_path chunksToRemove
        | none =>
          scanUpsert info s folder_id countForFolder (-1) document_time
            document_path chunksToRemove

/-- Removal of a batch of chunk ids from the vector index, the
m_embeddings->remove loop shared by the batch operations (lines 1052-1053,
1565-1566). -/
def vecRemoveAll : List Int → SysState → SysState
  | [], s => s
  | c :: rest, s =>
    vecRemoveAll rest
      { s with vec := s.vec.filter (fun v => !(v = c))
               trace := s.trace ++ [.vecRemove c] }

/-- Result of the scan-tick loop: finished (queue empty or time budget spent),
a reported per-document failure, or a crash. -/
inductive ScanLoopRes where
  | done (s : SysState) (ctr : List Int)
  | failed (s : SysState)
  | crashed (s : SysState)
  deriving DecidableEq, Repr

/-- The while loop of Database::scanQueueBatch (lines 1043-1049): process
documents until the queue empties or the 100 ms budget runs out.  Wall-clock
time is abstracted as a fuel bound on the number of iterations. -/
def scanLoop : Nat → SysState → List Int → ScanLoopRes
  | 0, s, ctr => .done s ctr
  | fuel + 1, s, ctr =>
    if s.docsToScan.isEmpty then .done s ctr
    else
      match scanQueue s ctr with
      | (.crash, s2, _) => .crashed s2
      | (.ok false, s2, _) => .failed s2
      | (.ok true, s2, ctr2) => scanLoop fuel s2 ctr2

/-- Overall outcome of one scan tick. -/
inductive BatchOutcome where
  | committed
  | aborted
  | crashed
  deriving DecidableEq, Repr

/-- Database::scanQueueBatch (lines 1032-1057): open a transaction, run the
loop; on a reported failure roll back and stop; otherwise remove the scheduled
chunks from the vector index, commit, and persist the vector index when
anything was removed. -/
def scanQueueBatch (fuel : Nat) (s : SysState) : BatchOutcome × SysState :=
  let s := txBegin s
  match scanLoop fuel s [] with
  | .crashed s2 => (.crashed, s2)
  | .failed s2 => (.aborted, txRollback s2)
  | .done s2 ctr =>
    let s3 := vecRemoveAll ctr s2
    let s4 := txCommit s3
    let s5 := if ctr.isEmpty then s4 else { s4 with trace := s4.trace ++ [.vecSave] }
    (.committed, s5)

/-- Per-document body of the deletion loop in Database::removeFolderInternal
(lines 1543-1556): collect the chunk ids of the document, delete its chunks
and FTS rows, delete the document row. -/
def removeDocsLoop : List Int → SysState → List Int → SysState × List Int
  | [], s, ctr => (s, ctr)
  | did :: rest, s, ctr =>
    let ctr2 := ctr ++ ((s.db.chunks.filter (fun c => c.document_id = did)).map
      (fun c => c.chunk_id))
    let newChunks := s.db.chunks.filter (fun c => !(c.document_id = did))
    let newFts := s.db.chunks_fts.filter (fun c => !(c.document_id = did))
    let s2 : SysState := { s with
      db := { s.db with chunks := newChunks, chunks_fts := newFts }
      trace := s.trace ++ [.dbWrite] }
    let newDocs := s2.db.documents.filter (fun d => !(d.id = did))
    let s3 : SysState := { s2 with
      db := { s2.db with documents := newDocs }
      trace := s2.trace ++ [.dbWrite] }
    removeDocsLoop rest s3 ctr2

/-- Cascade part of Database::removeFolderInternal (lines 1532-1569), run
when the folder had at most one referencing collection row: drop the folder
queue, delete every document of the folder with its chunks and FTS rows,
delete the folder row, remove the collected chunk ids from the vector index,
commit, and persist the index when anything was removed. -/
def removeFolderCascade (folder_id : Int) (s0 : SysState) : SysState :=
  let s := removeFolderFromDocumentQueue folder_id s0
  let documentIds := (s.db.documents.filter (fun d => d.folder_id = folder_id)).map
    (fun d => d.id)
  let r := removeDocsLoop documentIds s []
  let s := r.1
  let chunksToRemove := r.2
  let newFolders := s.db.folders.filter (fun f => !(f.id = folder_id))
  let s := { s with
    db := { s.db with folders := newFolders }
    trace := s.trace ++ [.dbWrite] }
  let s := vecRemoveAll chunksToRemove s
  let s := txCommit s
  if chunksToRemove.isEmpty then s else { s with trace := s.trace ++ [.vecSave] }

/-- Database::removeFolderInternal (lines 1510-1573): count the collection
rows referencing the folder before anything is deleted, open a transaction,
delete the named association; if more than one collection row referenced the
folder, commit and stop; otherwise drop the folder queue, delete every
document with its chunks, delete the folder row, remove the collected chunk
ids from the vector index, commit, and persist the index when anything was
removed.  SQL failures and the watcher/GUI calls are elided: no claim
concerns them and every statement here is deterministic on the in-memory
store. -/
def removeFolderInternal (collection : String) (folder_id : Int) (s : SysState) :
    SysState :=
  let collections := ((s.db.collections.filter (fun r => r.folder_id = folder_id)).map
    (fun r => r.collection_name))
  let s := txBegin s
  let newColls := s.db.collections.filter
    (fun r => !(r.collection_name = collection && r.folder_id = folder_id))
  let s := { s with
    db := { s.db with collections := newColls }
    trace := s.trace ++ [.dbWrite] }
  if collections.length > 1 then txCommit s
  else removeFolderCascade folder_id s

/-- Database::handleEmbeddingsGenerated (lines 910-937): nothing happens for
an empty result batch; otherwise, for each result, add the vector to the
vector index under its chunk id and, only if the add succeeded, set
has_embedding = 1 for that chunk; finally persist the vector index.  Success
of the external index add is an oracle on the chunk id. -/
def applyEmbeddings (addOk : Int → Bool) : List EmbeddingResult → SysState → SysState
  | [], s => s
  | e :: rest, s =>
    if addOk e.chunk_id then
      let s2 : SysState := { s with vec := s.vec ++ [e.chunk_id]
                                    trace := s.trace ++ [.vecAdd e.chunk_id] }
      let newChunks := s2.db.chunks.map (fun c =>
        if c.chunk_id = e.chunk_id then { c with has_embedding := true } else c)
      let s3 : SysState := { s2 with
        db := { s2.db with chunks := newChunks }
        trace := s2.trace ++ [.dbWrite] }
      applyEmbeddings addOk rest s3
    else applyEmbeddings addOk rest s

/-- Database::handleEmbeddingsGenerated entry point: early return on an empty
batch, otherwise apply every result and persist the vector index. -/
def handleEmbeddingsGenerated (addOk : Int → Bool) (embeddings : List EmbeddingResult)
    (s : SysState) : SysState :=
  if embeddings.isEmpty then s
  else
    let s := applyEmbeddings addOk embeddings s
    { s with trace := s.trace ++ [.vecSave] }

/-- Vector-index events. -/
def isVecEvent : Event → Bool
  | .vecRemove _ => true
  | .vecAdd _ => true
  | .vecSave => true
  | _ => false

/-- Vector-index removal events. -/
def isVecRemove : Event → Bool
  | .vecRemove _ => true
  | _ => false

/-- Transaction-closing events. -/
def isTxStop : Event → Bool
  | .txCommit => true
  | .txRollback => true
  | _ => false

/-- Events a scanQueue pass may emit: relational writes and embedder
dispatches, but no transaction or vector-index events. -/
def evSafe : Event → Bool
  | .dbWrite => true
  | .embedDispatch => true
  | _ => false

/-- Well-shaped event trace of one batch operation: a transaction opens; if it
rolls back, or never closes (crash), the vector index was never touched; if it
commits, everything before the commit is relational work followed by one
contiguous block of vector removals, and the index is persisted exactly when
something was removed, immediately after the commit. -/
def traceShapeOk (t : List Event) : Bool :=
  match t with
  | .txBegin :: rest =>
    let pre := rest.takeWhile (fun e => !(isTxStop e))
    let post := rest.dropWhile (fun e => !(isTxStop e))
    match post with
    | .txRollback :: tail => pre.all (fun e => !(isVecEvent e)) && tail.isEmpty
    | .txCommit :: tail =>
      let removes := pre.dropWhile (fun e => !(isVecEvent e))
      removes.all isVecRemove &&
        decide (tail = (if removes.isEmpty then ([] : List Event) else [Event.vecSave]))
    | _ => pre.all (fun e => !(isVecEvent e))
  | _ => false

/-- Vector mutations happened strictly before the transaction commit. -/
def vecTouchedBeforeCommit (t : List Event) : Bool :=
  ((t.takeWhile (fun e => !(e = Event.txCommit))).any isVecEvent) &&
    t.contains Event.txCommit

/-- A state extends another with only safe (relational or dispatch) events and
the same open transaction snapshot. -/
def TraceExt (s s2 : SysState) : Prop :=
  s2.pendingTx = s.pendingTx ∧
    ∃ d, s2.trace = s.trace ++ d ∧ d.all evSafe = true

theorem traceExt_refl (s : SysState) : TraceExt s s :=
  ⟨rfl, [], by simp, by simp⟩

theorem traceExt_trans {s1 s2 s3 : SysState} (h1 : TraceExt s1 s2)
    (h2 : TraceExt s2 s3) : TraceExt s1 s3 := by
  obtain ⟨hp1, d1, ht1, hs1⟩ := h1
  obtain ⟨hp2, d2, ht2, hs2⟩ := h2
  refine ⟨hp2.trans hp1, d1 ++ d2, ?_, ?_⟩
  · rw [ht2, ht1, List.append_assoc]
  · simp only [List.all_append, hs1, hs2, Bool.and_self]

theorem traceExt_sendChunkList (s : SysState) : TraceExt s (sendChunkList s) := by
  refine ⟨rfl, [Event.embedDispatch], ?_, by simp [evSafe]⟩
  simp [sendChunkList]

theorem traceExt_appendChunk (c : EmbeddingChunk) (s : SysState) :
    TraceExt s (appendChunk c s) := by
  unfold appendChunk
  dsimp only
  split
  · exact traceExt_trans
      (show TraceExt s { s with chunkList := s.chunkList ++ [c] } from
        ⟨rfl, [], by simp, by simp⟩)
      (traceExt_sendChunkList _)
  · exact ⟨rfl, [], by simp, by simp⟩

theorem traceExt_scheduleNext (f : Int) (n : Nat) (s : SysState) :
    TraceExt s (scheduleNext f n s) := by
  unfold scheduleNext
  split
  · exact traceExt_sendChunkList s
  · exact traceExt_refl s

theorem traceExt_addChunkOp (o : ChunkInsOut) (did : Int)
    (ct f ti au su kw : String) (pg : Int) (wc : Nat) (s : SysState) :
    TraceExt s (addChunkOp o did ct f ti au su kw pg wc s).1 := by
  unfold addChunkOp
  dsimp only
  split
  · split
    · exact ⟨rfl, [Event.dbWrite, Event.dbWrite], by simp, by simp [evSafe]⟩
    · exact ⟨rfl, [Event.dbWrite], by simp, by simp [evSafe]⟩
  · exact traceExt_refl s

theorem traceExt_chunkEmitStep (outs : List ChunkInsOut) (fid did : Int)
    (f ti au su kw : String) (pg : Int) (st : SysState) (p : Nat × EmitRec) :
    TraceExt st (chunkEmitStep outs fid did f ti au su kw pg st p) := by
  unfold chunkEmitStep
  dsimp only
  exact traceExt_trans (traceExt_addChunkOp _ _ _ _ _ _ _ _ _ _ st)
    (traceExt_appendChunk _ _)

theorem traceExt_foldl {a : Type} (g : SysState → a → SysState)
    (h : ∀ st x, TraceExt st (g st x)) :
    ∀ (l : List a) (s : SysState), TraceExt s (l.foldl g s) := by
  intro l
  induction l with
  | nil => intro s; exact traceExt_refl s
  | cons x rest ih =>
    intro s
    simp only [List.foldl_cons]
    exact traceExt_trans (h s x) (ih (g s x))

theorem traceExt_chunkStreamDb (s : SysState) (outs : List ChunkInsOut)
    (fid did : Int) (f ti au su kw : String) (pg : Int) (mx : Nat)
    (input : List Char) :
    TraceExt s (chunkStreamDb s outs fid did f ti au su kw pg mx input).1 := by
  unfold chunkStreamDb
  exact traceExt_foldl _ (traceExt_chunkEmitStep outs fid did f ti au su kw pg) _ s

theorem traceExt_enqueue (info : DocumentInfo) (p : Bool) (s : SysState) :
    TraceExt s (enqueueDocumentInternal info p s) := by
  refine ⟨?_, [], by simp [enqueueDocumentInternal], by simp⟩
  simp [enqueueDocumentInternal]

theorem traceExt_dequeue {s : SysState} {info : DocumentInfo} {s2 : SysState}
    (h : dequeueDoc s = some (info, s2)) : TraceExt s s2 := by
  unfold dequeueDoc at h
  split at h
  · exact absurd h (by simp)
  · split at h
    · exact absurd h (by simp)
    · simp only [Option.some.injEq, Prod.mk.injEq] at h
      obtain ⟨-, h2⟩ := h
      rw [← h2]
      exact ⟨rfl, [], by simp, by simp⟩

theorem traceExt_dbWrite (s : SysState) (db2 : DbState) :
    TraceExt s { s with db := db2, trace := s.trace ++ [Event.dbWrite] } :=
  ⟨rfl, [Event.dbWrite], rfl, by simp [evSafe]⟩

theorem traceExt_step (s s2 : SysState) (h1 : s2.pendingTx = s.pendingTx)
    (h2 : s2.trace = s.trace ++ [Event.dbWrite]) : TraceExt s s2 :=
  ⟨h1, [Event.dbWrite], h2, by simp [evSafe]⟩

set_option maxHeartbeats 1000000 in
theorem traceExt_scanDispatch (info : DocumentInfo) (s : SysState) (fid : Int)
    (cnt : Nat) (did : Int) (ctr : List Int) :
    TraceExt s (scanDispatch info s fid cnt did ctr).2.1 := by
  unfold scanDispatch
  dsimp only
  repeat' (split <;> (try dsimp only))
  all_goals try exact traceExt_refl s
  all_goals try with_reducible exact traceExt_scheduleNext _ _ _
  all_goals try
    exact traceExt_trans (traceExt_chunkStreamDb _ _ _ _ _ _ _ _ _ _ _ _)
      (traceExt_trans (traceExt_enqueue _ _ _) (traceExt_scheduleNext _ _ _))
  all_goals
    exact traceExt_trans (traceExt_chunkStreamDb _ _ _ _ _ _ _ _ _ _ _ _)
      (traceExt_scheduleNext _ _ _)

set_option maxHeartbeats 1000000 in
theorem traceExt_scanUpsert (info : DocumentInfo) (s : SysState) (fid : Int)
    (cnt : Nat) (eid : Int) (dt : Int) (dp : String) (ctr : List Int) :
    TraceExt s (scanUpsert info s fid cnt eid dt dp ctr).2.1 := by
  unfold scanUpsert
  dsimp only
  repeat' (split <;> (try dsimp only))
  all_goals try with_reducible exact traceExt_scheduleNext _ _ _
  all_goals try with_reducible exact traceExt_scanDispatch _ _ _ _ _ _
  all_goals with_reducible exact traceExt_trans (traceExt_dbWrite _ _) (traceExt_scanDispatch _ _ _ _ _ _)

set_option maxHeartbeats 1000000 in
theorem traceExt_scanQueue (s0 : SysState) (ctr : List Int) :
    TraceExt s0 (scanQueue s0 ctr).2.1 := by
  unfold scanQueue
  split
  · exact traceExt_refl s0
  · rename_i info s heq
    have hd := traceExt_dequeue heq
    dsimp only
    repeat' (split <;> (try dsimp only))
    all_goals try with_reducible exact traceExt_trans hd (traceExt_scheduleNext _ _ _)
    · apply traceExt_trans hd
      apply traceExt_trans
      rotate_left
      · with_reducible exact traceExt_scanUpsert _ _ _ _ _ _ _ _
      · exact traceExt_step _ _ rfl rfl
    all_goals with_reducible exact traceExt_trans hd (traceExt_scanUpsert _ _ _ _ _ _ _ _)

theorem takeWhile_append_all {a : Type} (p : a → Bool) (l1 l2 : List a)
    (h : ∀ e ∈ l1, p e = true) : (l1 ++ l2).takeWhile p = l1 ++ l2.takeWhile p := by
  induction l1 with
  | nil => simp
  | cons x t ih =>
    have hx := h x (by simp)
    simp only [List.cons_append, List.takeWhile_cons, hx, if_true]
    rw [ih (fun e he => h e (by simp [he]))]

theorem dropWhile_append_all {a : Type} (p : a → Bool) (l1 l2 : List a)
    (h : ∀ e ∈ l1, p e = true) : (l1 ++ l2).dropWhile p = l2.dropWhile p := by
  induction l1 with
  | nil => simp
  | cons x t ih =>
    have hx := h x (by simp)
    simp only [List.cons_append, List.dropWhile_cons, hx, if_true]
    exact ih (fun e he => h e (by simp [he]))

theorem takeWhile_all {a : Type} (p : a → Bool) (l : List a)
    (h : ∀ e ∈ l, p e = true) : l.takeWhile p = l := by
  have := takeWhile_append_all p l [] h
  simpa using this

theorem dropWhile_all {a : Type} (p : a → Bool) (l : List a)
    (h : ∀ e ∈ l, p e = true) : l.dropWhile p = [] := by
  have := dropWhile_append_all p l [] h
  simpa using this

theorem dropWhile_none {a : Type} (p : a → Bool) (l : List a)
    (h : ∀ e ∈ l, p e = false) : l.dropWhile p = l := by
  cases l with
  | nil => simp
  | cons x t =>
    have hx := h x (by simp)
    simp [List.dropWhile_cons, hx]

theorem evSafe_not_tx {e : Event} (h : evSafe e = true) : isTxStop e = false := by
  cases e <;> simp [evSafe, isTxStop] at h ⊢

theorem evSafe_not_vec {e : Event} (h : evSafe e = true) : isVecEvent e = false := by
  cases e <;> simp [evSafe, isVecEvent] at h ⊢

theorem vecRemoveAll_spec : ∀ (l : List Int) (s : SysState),
    (vecRemoveAll l s).trace = s.trace ++ l.map Event.vecRemove ∧
      (vecRemoveAll l s).pendingTx = s.pendingTx ∧
      (vecRemoveAll l s).db = s.db ∧
      (vecRemoveAll l s).vec = s.vec.filter (fun v => !(l.contains v)) := by
  intro l
  induction l with
  | nil => intro s; simp [vecRemoveAll]
  | cons c rest ih =>
    intro s
    obtain ⟨h1, h2, h3, h4⟩ := ih
      { s with vec := s.vec.filter (fun v => !(v = c))
               trace := s.trace ++ [Event.vecRemove c] }
    refine ⟨?_, by simpa using h2, by simpa using h3, ?_⟩
    · rw [vecRemoveAll, h1]
      simp
    · rw [vecRemoveAll, h4]
      simp only [List.filter_filter]
      congr 1
      funext v
      by_cases hv : v = c <;> simp [hv, List.contains_cons]

/-- State carried by a scan-loop result. -/
def scanLoopState : ScanLoopRes → SysState
  | .done s _ => s
  | .failed s => s
  | .crashed s => s

theorem traceExt_scanLoop (fuel : Nat) : ∀ (s : SysState) (ctr : List Int),
    TraceExt s (scanLoopState (scanLoop fuel s ctr)) := by
  induction fuel with
  | zero => intro s ctr; exact traceExt_refl s
  | succ n ih =>
    intro s ctr
    unfold scanLoop
    split
    · exact traceExt_refl s
    · split
      · rename_i s2 u heq
        have h := traceExt_scanQueue s ctr
        rw [heq] at h
        exact h
      · rename_i s2 u heq
        have h := traceExt_scanQueue s ctr
        rw [heq] at h
        exact h
      · rename_i s2 ctr2 heq
        have h := traceExt_scanQueue s ctr
        rw [heq] at h
        exact traceExt_trans h (ih s2 ctr2)

theorem vec_not_stop {e : Event} (h : isVecEvent e = true) : isTxStop e = false := by
  cases e <;> simp [isVecEvent, isTxStop] at h ⊢

theorem traceShapeOk_open (d : List Event) (hd : d.all evSafe = true) :
    traceShapeOk (Event.txBegin :: d) = true := by
  have hall := List.all_eq_true.1 hd
  have hstop : ∀ e ∈ d, (!(isTxStop e)) = true := by
    intro e he; simp [evSafe_not_tx (hall e he)]
  have hvec : ∀ e ∈ d, (!(isVecEvent e)) = true := by
    intro e he; simp [evSafe_not_vec (hall e he)]
  simp only [traceShapeOk]
  rw [takeWhile_all _ d hstop, dropWhile_all _ d hstop]
  simp only []
  exact List.all_eq_true.2 hvec

theorem traceShapeOk_rollback (d : List Event) (hd : d.all evSafe = true) :
    traceShapeOk (Event.txBegin :: (d ++ [Event.txRollback])) = true := by
  have hall := List.all_eq_true.1 hd
  have hstop : ∀ e ∈ d, (!(isTxStop e)) = true := by
    intro e he; simp [evSafe_not_tx (hall e he)]
  have hvec : ∀ e ∈ d, (!(isVecEvent e)) = true := by
    intro e he; simp [evSafe_not_vec (hall e he)]
  simp only [traceShapeOk]
  rw [takeWhile_append_all _ d _ hstop, dropWhile_append_all _ d _ hstop]
  simp only [List.takeWhile_cons, isTxStop, Bool.not_true, if_false,
    List.dropWhile_cons, List.append_nil]
  simp only [Bool.false_eq_true, if_false, List.isEmpty_nil, Bool.and_true]
  refine List.all_eq_true.2 ?_
  intro e he
  exact hvec e (by simpa using he)

theorem traceShapeOk_commit (d removes tail : List Event)
    (hd : d.all evSafe = true)
    (hrem : ∀ e ∈ removes, isVecRemove e = true)
    (htail : tail = if removes.isEmpty then ([] : List Event) else [Event.vecSave]) :
    traceShapeOk (Event.txBegin :: (d ++ removes ++ Event.txCommit :: tail)) = true := by
  have hall := List.all_eq_true.1 hd
  have hremvec : ∀ e ∈ removes, isVecEvent e = true := by
    intro e he
    have := hrem e he
    cases e <;> simp [isVecRemove, isVecEvent] at this ⊢
  have hstop : ∀ e ∈ d ++ removes, (!(isTxStop e)) = true := by
    intro e he
    rcases List.mem_append.1 he with h | h
    · simp [evSafe_not_tx (hall e h)]
    · simp [vec_not_stop (hremvec e h)]
  have hvecd : ∀ e ∈ d, (!(isVecEvent e)) = true := by
    intro e he; simp [evSafe_not_vec (hall e he)]
  simp only [traceShapeOk, ← List.append_assoc]
  rw [takeWhile_append_all _ (d ++ removes) _ hstop,
    dropWhile_append_all _ (d ++ removes) _ hstop]
  simp only [List.takeWhile_cons, isTxStop, Bool.not_true, if_false,
    List.dropWhile_cons, List.append_nil]
  simp only [Bool.false_eq_true, if_false, List.append_nil]
  rw [dropWhile_append_all _ d _ hvecd,
    dropWhile_none _ removes (fun e he => by simp [hremvec e he])]
  rw [htail]
  simp [List.all_eq_true.2 hrem]

theorem removeDocsLoop_chunks : ∀ (L : List Int) (s : SysState) (ctr : List Int),
    (removeDocsLoop L s ctr).1.db.chunks =
      s.db.chunks.filter (fun c => !(L.contains c.document_id)) := by
  intro L
  induction L with
  | nil => intro s ctr; simp [removeDocsLoop]
  | cons did rest ih =>
    intro s ctr
    rw [removeDocsLoop]
    dsimp only
    rw [ih]
    dsimp only
    rw [List.filter_filter]
    apply List.filter_congr
    intro c _
    by_cases hc : c.document_id = did <;> simp [hc, List.contains_cons]

theorem removeDocsLoop_fts : ∀ (L : List Int) (s : SysState) (ctr : List Int),
    (removeDocsLoop L s ctr).1.db.chunks_fts =
      s.db.chunks_fts.filter (fun c => !(L.contains c.document_id)) := by
  intro L
  induction L with
  | nil => intro s ctr; simp [removeDocsLoop]
  | cons did rest ih =>
    intro s ctr
    rw [removeDocsLoop]
    dsimp only
    rw [ih]
    dsimp only
    rw [List.filter_filter]
    apply List.filter_congr
    intro c _
    by_cases hc : c.document_id = did <;> simp [hc, List.contains_cons]

theorem removeDocsLoop_documents : ∀ (L : List Int) (s : SysState) (ctr : List Int),
    (removeDocsLoop L s ctr).1.db.documents =
      s.db.documents.filter (fun d => !(L.contains d.id)) := by
  intro L
  induction L with
  | nil => intro s ctr; simp [removeDocsLoop]
  | cons did rest ih =>
    intro s ctr
    rw [removeDocsLoop]
    dsimp only
    rw [ih]
    dsimp only
    rw [List.filter_filter]
    apply List.filter_congr
    intro d _
    by_cases hd : d.id = did <;> simp [hd, List.contains_cons]

theorem removeDocsLoop_frame : ∀ (L : List Int) (s : SysState) (ctr : List Int),
    (removeDocsLoop L s ctr).1.db.folders = s.db.folders ∧
      (removeDocsLoop L s ctr).1.db.collections = s.db.collections ∧
      (removeDocsLoop L s ctr).1.vec = s.vec ∧
      (removeDocsLoop L s ctr).1.pendingTx = s.pendingTx ∧
      (removeDocsLoop L s ctr).1.docsToScan = s.docsToScan := by
  intro L
  induction L with
  | nil => intro s ctr; exact ⟨rfl, rfl, rfl, rfl, rfl⟩
  | cons did rest ih =>
    intro s ctr
    rw [removeDocsLoop]
    dsimp only
    exact ih _ _

theorem removeDocsLoop_trace : ∀ (L : List Int) (s : SysState) (ctr : List Int),
    ∃ d2, (removeDocsLoop L s ctr).1.trace = s.trace ++ d2 ∧ d2.all evSafe = true := by
  intro L
  induction L with
  | nil => intro s ctr; exact ⟨[], by simp [removeDocsLoop], by simp⟩
  | cons did rest ih =>
    intro s ctr
    rw [removeDocsLoop]
    dsimp only
    obtain ⟨d2, h1, h2⟩ := ih _ _
    refine ⟨[Event.dbWrite, Event.dbWrite] ++ d2, ?_, ?_⟩
    · rw [h1]
      dsimp only
      simp
    · simp only [List.all_append, h2, Bool.and_true]
      simp [evSafe]

theorem removeDocsLoop_ctr_mem : ∀ (L : List Int) (s : SysState) (ctr : List Int)
    (x : Int), x ∈ (removeDocsLoop L s ctr).2 ↔
      x ∈ ctr ∨ ∃ c ∈ s.db.chunks, c.chunk_id = x ∧ c.document_id ∈ L := by
  intro L
  induction L with
  | nil => intro s ctr x; simp [removeDocsLoop]
  | cons did rest ih =>
    intro s ctr x
    rw [removeDocsLoop]
    dsimp only
    rw [ih]
    dsimp only
    constructor
    · rintro (hx | ⟨c, hc, hcx, hcd⟩)
      · rcases List.mem_append.1 hx with hx | hx
        · exact Or.inl hx
        · obtain ⟨c, hc, hcx⟩ := List.mem_map.1 hx
          obtain ⟨hc1, hc2⟩ := List.mem_filter.1 hc
          exact Or.inr ⟨c, hc1, hcx, by simp at hc2; simp [hc2]⟩
      · obtain ⟨hc1, hc2⟩ := List.mem_filter.1 hc
        refine Or.inr ⟨c, hc1, hcx, ?_⟩
        simp [List.mem_cons, hcd]
    · rintro (hx | ⟨c, hc, hcx, hcd⟩)
      · exact Or.inl (List.mem_append.2 (Or.inl hx))
      · rcases List.mem_cons.1 hcd with hd | hd
        · refine Or.inl (List.mem_append.2 (Or.inr ?_))
          exact List.mem_map.2 ⟨c, List.mem_filter.2 ⟨hc, by simp [hd]⟩, hcx⟩
        · by_cases hdid : c.document_id = did
          · refine Or.inl (List.mem_append.2 (Or.inr ?_))
            exact List.mem_map.2 ⟨c, List.mem_filter.2 ⟨hc, by simp [hdid]⟩, hcx⟩
          · exact Or.inr ⟨c, List.mem_filter.2 ⟨hc, by simp [hdid]⟩, hcx, hd⟩

theorem txBegin_trace (s : SysState) : (txBegin s).trace = s.trace ++ [Event.txBegin] := rfl

theorem txCommit_trace (s : SysState) : (txCommit s).trace = s.trace ++ [Event.txCommit] := rfl

theorem txRollback_trace (s : SysState) :
    (txRollback s).trace = s.trace ++ [Event.txRollback] := rfl

theorem rfdq_frame (fid : Int) (s : SysState) :
    (removeFolderFromDocumentQueue fid s).db = s.db ∧
      (removeFolderFromDocumentQueue fid s).trace = s.trace ∧
      (removeFolderFromDocumentQueue fid s).vec = s.vec ∧
      (removeFolderFromDocumentQueue fid s).pendingTx = s.pendingTx := by
  unfold removeFolderFromDocumentQueue
  split <;> exact ⟨rfl, rfl, rfl, rfl⟩

/-- Relational DB with all five tables empty and fresh autoincrement counters. -/
def emptyDb : DbState := ⟨[], [], [], [], [], 1, 1⟩

/-- SQL outcomes with every statement succeeding. -/
def dbOpsOk : DbOps := ⟨true, true, true, true, true, []⟩

/-- Filesystem view of a readable plain-text file. -/
def txtEnv (path content : String) (ops : DbOps) : DocEnv :=
  ⟨true, true, 111, path, "f.txt", content.length, .txt true true content, ops⟩

/-- Queued text document whose single chunk INSERT is made to fail. -/
def scanC1Job : DocumentInfo :=
  ⟨1, txtEnv "/a/f.txt" "hello" { dbOpsOk with chunkOuts := [⟨false, true⟩] }, 0, 0, false⟩

/-- Engine state holding only scanC1Job, over an empty DB. -/
def scanC1Start : SysState := ⟨emptyDb, none, [], [(1, [scanC1Job])], [], 500, []⟩

/-- Queued text document whose documents-table SELECT fails. -/
def scanC1FailJob : DocumentInfo :=
  ⟨1, txtEnv "/a/f.txt" "hello" { dbOpsOk with selectDocOk := false }, 0, 0, false⟩

/-- Engine state holding only scanC1FailJob, over an empty DB. -/
def scanC1FailStart : SysState := ⟨emptyDb, none, [], [(1, [scanC1FailJob])], [], 500, []⟩

/-- C1 counterexample: a tick whose only per-document work is a text document
whose chunk INSERT fails.  chunkStream merely logs the failed insert and
scanQueue reports success, so the batch commits: the relational state after
the tick differs from the state before it (the documents row landed while its
chunk did not), falsifying the claim that a failed DB chunk insert during
chunking rolls the tick back. -/
theorem scanTick_chunkInsertFailure_commits :
    (scanQueueBatch 10 scanC1Start).1 = BatchOutcome.committed ∧
      (scanQueueBatch 10 scanC1Start).2.db ≠ scanC1Start.db ∧
      (scanQueueBatch 10 scanC1Start).2.db.documents.length = 1 ∧
      (scanQueueBatch 10 scanC1Start).2.db.chunks = [] := by
  decide

/-- C1 (amended): whenever a scan tick aborts, that is, whenever any dequeued
document reports a failure that scanQueue propagates (document SELECT, chunk
lookup or deletion, document UPDATE or INSERT, PDF load, file open, seek), the
enclosing transaction is rolled back and the relational DB state after the
tick is identical to the state before it.  A chunk INSERT failure inside
chunkStream is not among these: it is only logged (see the counterexample). -/
theorem scanTick_reportedFailure_rollsBack (fuel : Nat) (s : SysState)
    (h : (scanQueueBatch fuel s).1 = BatchOutcome.aborted) :
    (scanQueueBatch fuel s).2.db = s.db := by
  unfold scanQueueBatch at h ⊢
  dsimp only at h ⊢
  have hext := traceExt_scanLoop fuel (txBegin s) []
  rcases heq : scanLoop fuel (txBegin s) [] with ⟨s2, ctr⟩ | ⟨s2⟩ | ⟨s2⟩
  · try rw [heq] at h
    simp at h
  · try rw [heq] at h
    try rw [heq] at hext
    try rw [heq]
    dsimp only [scanLoopState] at hext
    obtain ⟨hp, -⟩ := hext
    show (txRollback s2).db = s.db
    have h2 : s2.pendingTx = some s.db := by rw [hp]; rfl
    simp [txRollback, h2]
  · try rw [heq] at h
    simp at h

/-- Witness for the amended C1 theorem at a concrete aborting tick: the only
queued document has a failing documents-table SELECT. -/
theorem scanTick_reportedFailure_rollsBack_witness :
    (scanQueueBatch 1 scanC1FailStart).1 = BatchOutcome.aborted ∧
      (scanQueueBatch 1 scanC1FailStart).2.db = scanC1FailStart.db :=
  ⟨by decide, scanTick_reportedFailure_rollsBack 1 scanC1FailStart (by decide)⟩

/-- A chunk row with the given ids and embedded flag set, as left by a
previous fully indexed scan. -/
def oldChunkRow (cid did : Int) : ChunkRow :=
  ⟨did, cid, "old", "f.txt", "", "", "", "", -1, -1, -1, 1, 0, true⟩

/-- DB holding one folder, one indexed document with one embedded chunk. -/
def scanC2Db : DbState :=
  ⟨[⟨1, "/a"⟩], [⟨5, 1, 100, "/a/f.txt"⟩], [oldChunkRow 7 5], [],
    [⟨"X", 1, 0, "m", false⟩], 8, 6⟩

/-- The same document queued again with a newer mtime (stale rescan). -/
def scanC2Job : DocumentInfo := ⟨1, txtEnv "/a/f.txt" "hi" dbOpsOk, 0, 0, false⟩

/-- Engine state for the stale-rescan tick: chunk 7 is in the vector index. -/
def scanC2Start : SysState := ⟨scanC2Db, none, [7], [(1, [scanC2Job])], [], 500, []⟩

/-- C2 counterexample: in a committing stale-rescan tick, the removal of the
stale chunk from the vector index happens strictly before the transaction
commit (the commit follows the removals; only the save comes after),
falsifying the claim that the vector index is not touched before the commit. -/
theorem vectorRemove_beforeCommit :
    (scanQueueBatch 10 scanC2Start).1 = BatchOutcome.committed ∧
      vecTouchedBeforeCommit (scanQueueBatch 10 scanC2Start).2.trace = true := by
  decide

theorem vecRemoveAll_trace (l : List Int) (s : SysState) :
    (vecRemoveAll l s).trace = s.trace ++ l.map Event.vecRemove :=
  (vecRemoveAll_spec l s).1

theorem cascade_traceShape (fid : Int) (s1 : SysState) (d0 : List Event)
    (h1 : s1.trace = Event.txBegin :: d0) (hd0 : d0.all evSafe = true) :
    traceShapeOk (removeFolderCascade fid s1).trace = true := by
  unfold removeFolderCascade
  dsimp only
  rcases hr : removeDocsLoop
      (((removeFolderFromDocumentQueue fid s1).db.documents.filter
        (fun d => d.folder_id = fid)).map (fun d => d.id))
      (removeFolderFromDocumentQueue fid s1) [] with ⟨sF, ctrF⟩
  rw [hr]
  dsimp only
  obtain ⟨-, hq2, -, -⟩ := rfdq_frame fid s1
  obtain ⟨d2, htr2, hsafe2⟩ := removeDocsLoop_trace
    (((removeFolderFromDocumentQueue fid s1).db.documents.filter
      (fun d => d.folder_id = fid)).map (fun d => d.id))
    (removeFolderFromDocumentQueue fid s1) []
  rw [hr] at htr2
  dsimp only at htr2
  rw [hq2, h1] at htr2
  by_cases hce : ctrF = []
  · subst hce
    simp only [List.isEmpty_nil, if_true]
    rw [txCommit_trace, vecRemoveAll_trace]
    dsimp only
    rw [htr2]
    have := traceShapeOk_commit (d0 ++ d2 ++ [Event.dbWrite]) [] []
      (by simp [List.all_append, hd0, hsafe2, evSafe]) (by simp) (by simp)
    simpa [List.append_assoc] using this
  · have hne : ctrF.isEmpty = false := by simpa [List.isEmpty_iff] using hce
    simp only [hne, Bool.false_eq_true, if_false]
    rw [txCommit_trace, vecRemoveAll_trace]
    dsimp only
    rw [htr2]
    have hrem : ∀ e ∈ ctrF.map Event.vecRemove, isVecRemove e = true := by
      intro e he
      obtain ⟨c, -, hce2⟩ := List.mem_map.1 he
      rw [← hce2]; rfl
    have hremne : (ctrF.map Event.vecRemove).isEmpty = false := by
      simpa [List.isEmpty_iff] using hce
    have := traceShapeOk_commit (d0 ++ d2 ++ [Event.dbWrite])
      (ctrF.map Event.vecRemove) [Event.vecSave]
      (by simp [List.all_append, hd0, hsafe2, evSafe]) hrem (by simp [hremne])
    simpa [List.append_assoc] using this


/-- SQL and filesystem outcomes for Database::cleanDB and
Database::changeChunkSize: whether the collections-folders SELECT and the
all-documents SELECT succeed, and, per document id, whether the chunk lookup,
the chunk deletion and the document deletion succeed. -/
structure CleanOps where
  selectCollectionsOk : Bool
  selectDocsOk : Bool
  getChunksOk : Int → Bool
  removeChunksOk : Int → Bool
  removeDocOk : Int → Bool

/-- Result of the per-document deletion loop shared by cleanDB and
changeChunkSize: completion with the collected chunk ids, or an early return
after a rollback. -/
inductive CleanLoopRes where
  | done (s : SysState) (ctr : List Int)
  | rolledBack (s : SysState)

/-- The while loop over the document snapshot in Database::cleanDB (lines
1684-1711) and Database::changeChunkSize (lines 1748-1765).  cleanDB skips a
document whose file still exists and is readable (the fs oracle);
changeChunkSize runs the same body with no skip.  For each processed
document: collect its chunk ids, delete its chunks and FTS rows, delete its
documents row; any SQL failure rolls the transaction back and returns. -/
def cleanDocsLoop (fs : String → Bool) (ops : CleanOps) :
    List DocumentRow → SysState → List Int → CleanLoopRes
  | [], s, ctr => .done s ctr
  | d :: rest, s, ctr =>
    if fs d.document_path then cleanDocsLoop fs ops rest s ctr
    else if !(ops.getChunksOk d.id) then .rolledBack (txRollback s)
    else
      let ctr2 := ctr ++ ((s.db.chunks.filter (fun c => c.document_id = d.id)).map
        (fun c => c.chunk_id))
      if !(ops.removeChunksOk d.id) then .rolledBack (txRollback s)
      else
        let s2 : SysState := { s with
          db := { s.db with
            chunks := s.db.chunks.filter (fun c => !(c.document_id = d.id))
            chunks_fts := s.db.chunks_fts.filter (fun c => !(c.document_id = d.id)) }
          trace := s.trace ++ [Event.dbWrite] }
        if !(ops.removeDocOk d.id) then .rolledBack (txRollback s2)
        else
          let s3 : SysState := { s2 with
            db := { s2.db with
              documents := s2.db.documents.filter (fun d2 => !(d2.id = d.id)) }
            trace := s2.trace ++ [Event.dbWrite] }
          cleanDocsLoop fs ops rest s3 ctr2

/-- Transactional tail shared by Database::cleanDB (lines 1682-1718) and
Database::changeChunkSize (lines 1746-1771): open a transaction over the
snapshot of the documents table, run the deletion loop, and on completion
remove the collected chunk ids from the vector index, commit, and persist the
index when anything was removed. -/
def cleanDBTx (fs : String → Bool) (ops : CleanOps) (s0 : SysState) : SysState :=
  let docs := s0.db.documents
  let s := txBegin s0
  match cleanDocsLoop fs ops docs s [] with
  | .rolledBack s2 => s2
  | .done s2 ctr =>
    let s3 := vecRemoveAll ctr s2
    let s4 := txCommit s3
    if ctr.isEmpty then s4 else { s4 with trace := s4.trace ++ [Event.vecSave] }

/-- The folder sweep of Database::cleanDB (lines 1653-1669): remove every
folder whose directory no longer exists or is unreadable.  The items are the
(collection_name, folder_id, folder_path) rows of the collections-folders
join, selected before the loop runs. -/
def cleanDBSweep (fs : String → Bool) :
    List (String × Int × String) → SysState → SysState
  | [], s => s
  | item :: rest, s =>
    if fs item.2.2 then cleanDBSweep fs rest s
    else cleanDBSweep fs rest (removeFolderInternal item.1 item.2.1 s)

/-- Database::cleanDB (lines 1646-1721): select the collections-folders join
(failure returns); remove every folder whose directory vanished via
removeFolderInternal; select all documents (failure returns); then delete
the rows of every vanished document in one transaction and update the vector
index.  The GUI statistics updates are elided; the ORDER BY of the snapshot
SELECT only permutes the sweep order and is represented by the storage
order. -/
def cleanDB (fs : String → Bool) (ops : CleanOps) (s0 : SysState) : SysState :=
  if !ops.selectCollectionsOk then s0
  else
    let items := s0.db.collections.filterMap (fun r =>
      (s0.db.folders.find? (fun f => f.id = r.folder_id)).map
        (fun f => (r.collection_name, r.folder_id, f.folder_path)))
    let s1 := cleanDBSweep fs items s0
    if !ops.selectDocsOk then s1
    else cleanDBTx fs ops s1

/-- Database::changeChunkSize (lines 1723-1775): no-op when the size is
unchanged; otherwise store the new chunk size, select all documents (failure
returns), and delete every document with its chunks in one transaction,
updating the vector index — the cleanDB loop body with no existence skip.
The trailing re-enqueue of the current folders and the GUI statistics update
are elided: they emit no relational, transaction or vector-index events. -/
def changeChunkSize (newSize : Int) (ops : CleanOps) (s0 : SysState) : SysState :=
  if newSize = s0.chunkSize then s0
  else
    let s1 : SysState := { s0 with chunkSize := newSize }
    if !ops.selectDocsOk then s1
    else cleanDBTx (fun _ => false) ops s1

/-- SQL outcomes for cleanDB and changeChunkSize with every statement
succeeding. -/
def cleanOpsOk : CleanOps := ⟨true, true, fun _ => true, fun _ => true, fun _ => true⟩

/-- A trace that is a concatenation of well-shaped transaction traces, one
segment per transaction the operation ran (possibly none). -/
def SegmentedShape (T : List Event) : Prop :=
  ∃ segs : List (List Event), T = segs.flatten ∧
    ∀ seg ∈ segs, traceShapeOk seg = true

theorem segmentedShape_nil : SegmentedShape [] :=
  ⟨[], rfl, by simp⟩

theorem segmentedShape_append {t1 t2 : List Event} (h1 : SegmentedShape t1)
    (h2 : SegmentedShape t2) : SegmentedShape (t1 ++ t2) := by
  obtain ⟨g1, e1, a1⟩ := h1
  obtain ⟨g2, e2, a2⟩ := h2
  refine ⟨g1 ++ g2, ?_, ?_⟩
  · rw [e1, e2, List.flatten_append]
  · intro seg hseg
    rcases List.mem_append.1 hseg with h | h
    · exact a1 seg h
    · exact a2 seg h

theorem segmentedShape_single {t : List Event} (h : traceShapeOk t = true) :
    SegmentedShape t := by
  refine ⟨[t], by simp, ?_⟩
  intro seg hseg
  rw [List.mem_singleton.1 hseg]
  exact h

theorem cascade_seg (fid : Int) (s1 : SysState) (t0 d0 : List Event)
    (h1 : s1.trace = t0 ++ (Event.txBegin :: d0)) (hd0 : d0.all evSafe = true) :
    ∃ seg, (removeFolderCascade fid s1).trace = t0 ++ seg ∧
      traceShapeOk seg = true := by
  unfold removeFolderCascade
  dsimp only
  rcases hr : removeDocsLoop
      (((removeFolderFromDocumentQueue fid s1).db.documents.filter
        (fun d => d.folder_id = fid)).map (fun d => d.id))
      (removeFolderFromDocumentQueue fid s1) [] with ⟨sF, ctrF⟩
  rw [hr]
  dsimp only
  obtain ⟨-, hq2, -, -⟩ := rfdq_frame fid s1
  obtain ⟨d2, htr2, hsafe2⟩ := removeDocsLoop_trace
    (((removeFolderFromDocumentQueue fid s1).db.documents.filter
      (fun d => d.folder_id = fid)).map (fun d => d.id))
    (removeFolderFromDocumentQueue fid s1) []
  rw [hr] at htr2
  dsimp only at htr2
  rw [hq2, h1] at htr2
  by_cases hce : ctrF = []
  · subst hce
    simp only [List.isEmpty_nil, if_true]
    rw [txCommit_trace, vecRemoveAll_trace]
    dsimp only
    rw [htr2]
    refine ⟨Event.txBegin ::
      ((d0 ++ d2 ++ [Event.dbWrite]) ++ [] ++ Event.txCommit :: []), ?_, ?_⟩
    · simp [List.append_assoc]
    · exact traceShapeOk_commit (d0 ++ d2 ++ [Event.dbWrite]) [] []
        (by simp [List.all_append, hd0, hsafe2, evSafe]) (by simp) (by simp)
  · have hne : ctrF.isEmpty = false := by simpa [List.isEmpty_iff] using hce
    simp only [hne, Bool.false_eq_true, if_false]
    rw [txCommit_trace, vecRemoveAll_trace]
    dsimp only
    rw [htr2]
    have hrem : ∀ e ∈ ctrF.map Event.vecRemove, isVecRemove e = true := by
      intro e he
      obtain ⟨c, -, hce2⟩ := List.mem_map.1 he
      rw [← hce2]; rfl
    have hremne : (ctrF.map Event.vecRemove).isEmpty = false := by
      simpa [List.isEmpty_iff] using hce
    refine ⟨Event.txBegin :: ((d0 ++ d2 ++ [Event.dbWrite]) ++
      ctrF.map Event.vecRemove ++ Event.txCommit :: [Event.vecSave]), ?_, ?_⟩
    · simp [List.append_assoc]
    · exact traceShapeOk_commit (d0 ++ d2 ++ [Event.dbWrite])
        (ctrF.map Event.vecRemove) [Event.vecSave]
        (by simp [List.all_append, hd0, hsafe2, evSafe]) hrem (by simp [hremne])

theorem removeFolderInternal_seg (coll : String) (fid : Int) (t : SysState) :
    ∃ seg, (removeFolderInternal coll fid t).trace = t.trace ++ seg ∧
      traceShapeOk seg = true := by
  unfold removeFolderInternal
  dsimp only
  split
  · refine ⟨Event.txBegin :: ([Event.dbWrite] ++ [] ++ Event.txCommit :: []),
      ?_, ?_⟩
    · rw [txCommit_trace]
      dsimp only
      rw [txBegin_trace]
      simp
    · exact traceShapeOk_commit [Event.dbWrite] [] [] (by simp [evSafe])
        (by simp) (by simp)
  · refine cascade_seg fid _ t.trace [Event.dbWrite] ?_ (by simp [evSafe])
    dsimp only
    rw [txBegin_trace]
    simp

theorem cleanDocsLoop_trace (fs : String → Bool) (ops : CleanOps) :
    ∀ (docs : List DocumentRow) (s : SysState) (ctr : List Int),
    (∀ s2 ctr2, cleanDocsLoop fs ops docs s ctr = .done s2 ctr2 →
      ∃ d2, d2.all evSafe = true ∧ s2.trace = s.trace ++ d2) ∧
    (∀ s2, cleanDocsLoop fs ops docs s ctr = .rolledBack s2 →
      ∃ d2, d2.all evSafe = true ∧
        s2.trace = s.trace ++ d2 ++ [Event.txRollback]) := by
  intro docs
  induction docs with
  | nil =>
    intro s ctr
    constructor
    · intro s2 ctr2 h
      rw [cleanDocsLoop] at h
      cases h
      exact ⟨[], by simp, by simp⟩
    · intro s2 h
      rw [cleanDocsLoop] at h
      simp at h
  | cons d rest ih =>
    intro s ctr
    constructor
    · intro s2 ctr2 h
      rw [cleanDocsLoop] at h
      split at h
      · exact (ih s ctr).1 s2 ctr2 h
      · split at h
        · simp at h
        · dsimp only at h
          split at h
          · simp at h
          · split at h
            · simp at h
            · obtain ⟨d2, hs2, ht2⟩ := (ih _ _).1 s2 ctr2 h
              refine ⟨[Event.dbWrite, Event.dbWrite] ++ d2, ?_, ?_⟩
              · simp only [List.all_append, hs2, Bool.and_true]
                simp [evSafe]
              · rw [ht2]
                dsimp only
                simp [List.append_assoc]
    · intro s2 h
      rw [cleanDocsLoop] at h
      split at h
      · exact (ih s ctr).2 s2 h
      · split at h
        · cases h
          exact ⟨[], by simp, by rw [txRollback_trace]; simp⟩
        · dsimp only at h
          split at h
          · cases h
            exact ⟨[], by simp, by rw [txRollback_trace]; simp⟩
          · split at h
            · cases h
              refine ⟨[Event.dbWrite], by simp [evSafe], ?_⟩
              rw [txRollback_trace]
              (try dsimp only)
              (try simp)
            · obtain ⟨d2, hs2, ht2⟩ := (ih _ _).2 s2 h
              refine ⟨[Event.dbWrite, Event.dbWrite] ++ d2, ?_, ?_⟩
              · simp only [List.all_append, hs2, Bool.and_true]
                simp [evSafe]
              · rw [ht2]
                dsimp only
                simp [List.append_assoc]

theorem cleanDBTx_seg (fs : String → Bool) (ops : CleanOps) (s0 : SysState) :
    ∃ seg, (cleanDBTx fs ops s0).trace = s0.trace ++ seg ∧
      traceShapeOk seg = true := by
  unfold cleanDBTx
  dsimp only
  rcases hr : cleanDocsLoop fs ops s0.db.documents (txBegin s0) [] with
    ⟨s2, ctr⟩ | ⟨s2⟩
  · dsimp only
    obtain ⟨d2, hsafe, htr⟩ :=
      (cleanDocsLoop_trace fs ops s0.db.documents (txBegin s0) []).1 s2 ctr hr
    rw [txBegin_trace] at htr
    by_cases hce : ctr = []
    · subst hce
      simp only [List.isEmpty_nil, if_true]
      rw [txCommit_trace, vecRemoveAll_trace, htr]
      refine ⟨Event.txBegin :: (d2 ++ [] ++ Event.txCommit :: []), ?_, ?_⟩
      · simp
      · exact traceShapeOk_commit d2 [] [] hsafe (by simp) (by simp)
    · have hne : ctr.isEmpty = false := by simpa [List.isEmpty_iff] using hce
      simp only [hne, Bool.false_eq_true, if_false]
      rw [txCommit_trace, vecRemoveAll_trace, htr]
      have hrem : ∀ e ∈ ctr.map Event.vecRemove, isVecRemove e = true := by
        intro e he
        obtain ⟨c, -, hce2⟩ := List.mem_map.1 he
        rw [← hce2]; rfl
      have hremne : (ctr.map Event.vecRemove).isEmpty = false := by
        simpa [List.isEmpty_iff] using hce
      refine ⟨Event.txBegin :: (d2 ++ ctr.map Event.vecRemove ++
        Event.txCommit :: [Event.vecSave]), ?_, ?_⟩
      · simp [List.append_assoc]
      · exact traceShapeOk_commit d2 (ctr.map Event.vecRemove) [Event.vecSave]
          hsafe hrem (by simp [hremne])
  · dsimp only
    obtain ⟨d2, hsafe, htr⟩ :=
      (cleanDocsLoop_trace fs ops s0.db.documents (txBegin s0) []).2 s2 hr
    rw [txBegin_trace] at htr
    refine ⟨Event.txBegin :: (d2 ++ [Event.txRollback]), ?_,
      traceShapeOk_rollback d2 hsafe⟩
    rw [htr]
    simp [List.append_assoc]

theorem cleanDBSweep_seg (fs : String → Bool) :
    ∀ (items : List (String × Int × String)) (s : SysState),
    ∃ T, (cleanDBSweep fs items s).trace = s.trace ++ T ∧ SegmentedShape T := by
  intro items
  induction items with
  | nil =>
    intro s
    exact ⟨[], by simp [cleanDBSweep], segmentedShape_nil⟩
  | cons item rest ih =>
    intro s
    rw [cleanDBSweep]
    split
    · exact ih s
    · obtain ⟨seg, hseg, hok⟩ := removeFolderInternal_seg item.1 item.2.1 s
      obtain ⟨T, hT, hTok⟩ := ih (removeFolderInternal item.1 item.2.1 s)
      refine ⟨seg ++ T, ?_,
        segmentedShape_append (segmentedShape_single hok) hTok⟩
      rw [hT, hseg, List.append_assoc]

/-- C2 (amended): in every batch operation that deletes chunks — a scan tick,
a folder removal, a DB cleanup, a chunk-size change — started with an empty
event history, every transaction the operation runs has a well-shaped trace:
the vector-index removals form one contiguous block after all relational
writes of the transaction and immediately before its commit (not after it),
the index save is the only event after the commit and occurs exactly when
something was removed, and on a rollback (or a crash that never reaches the
commit) the vector index is not touched at all.  scanQueueBatch and
removeFolderInternal run exactly one transaction; cleanDB runs one per
removed folder plus one for the document sweep, and changeChunkSize runs at
most one, so the latter two traces are concatenations of well-shaped
transaction segments. -/
theorem batch_vector_trace_shape (fuel : Nat) (s t u v : SysState)
    (coll : String) (fid : Int) (fs : String → Bool) (ops : CleanOps)
    (newSize : Int) (hs : s.trace = []) (ht : t.trace = [])
    (hu : u.trace = []) (hv : v.trace = []) :
    traceShapeOk (scanQueueBatch fuel s).2.trace = true ∧
      traceShapeOk (removeFolderInternal coll fid t).trace = true ∧
      SegmentedShape (cleanDB fs ops u).trace ∧
      SegmentedShape (changeChunkSize newSize ops v).trace := by
  refine ⟨?_, ?_, ?_, ?_⟩
  · unfold scanQueueBatch
    dsimp only
    have hext := traceExt_scanLoop fuel (txBegin s) []
    rcases heq : scanLoop fuel (txBegin s) [] with ⟨s2, ctr⟩ | ⟨s2⟩ | ⟨s2⟩ <;>
      try rw [heq] at hext <;> try rw [heq]
    · dsimp only [scanLoopState] at hext
      obtain ⟨hp, d, htr, hsafe⟩ := hext
      have hs2 : s2.trace = Event.txBegin :: d := by
        rw [htr]; simp [txBegin, hs]
      obtain ⟨hv1, -, -, -⟩ := vecRemoveAll_spec ctr s2
      by_cases hc : ctr = []
      · subst hc
        simp only [List.isEmpty_nil, if_true]
        have := traceShapeOk_commit d [] [] hsafe (by simp) (by simp)
        simpa [txCommit_trace, hv1, hs2] using this
      · have hne : ctr.isEmpty = false := by
          simpa [List.isEmpty_iff] using hc
        simp only [hne, Bool.false_eq_true, if_false]
        have hrem : ∀ e ∈ ctr.map Event.vecRemove, isVecRemove e = true := by
          intro e he
          obtain ⟨c, -, hce⟩ := List.mem_map.1 he
          rw [← hce]; rfl
        have hremne : (ctr.map Event.vecRemove).isEmpty = false := by
          simpa [List.isEmpty_iff] using hc
        have := traceShapeOk_commit d (ctr.map Event.vecRemove) [Event.vecSave]
          hsafe hrem (by simp [hremne])
        simpa [txCommit_trace, hv1, hs2, List.append_assoc] using this
    · dsimp only [scanLoopState] at hext
      obtain ⟨hp, d, htr, hsafe⟩ := hext
      have hs2 : s2.trace = Event.txBegin :: d := by
        rw [htr]; simp [txBegin, hs]
      have := traceShapeOk_rollback d hsafe
      simpa [txRollback_trace, hs2] using this
    · dsimp only [scanLoopState] at hext
      obtain ⟨hp, d, htr, hsafe⟩ := hext
      have hs2 : s2.trace = Event.txBegin :: d := by
        rw [htr]; simp [txBegin, hs]
      have := traceShapeOk_open d hsafe
      simpa [hs2] using this
  · unfold removeFolderInternal
    dsimp only
    split
    · rw [txCommit_trace]
      dsimp only
      rw [txBegin_trace, ht]
      have := traceShapeOk_commit [Event.dbWrite] [] []
        (by simp [evSafe]) (by simp) (by simp)
      simpa using this
    · refine cascade_traceShape _ _ [Event.dbWrite] ?_ (by simp [evSafe])
      simp [txBegin, ht]
  · unfold cleanDB
    dsimp only
    split
    · rw [hu]
      exact segmentedShape_nil
    · obtain ⟨T, hT, hTok⟩ := cleanDBSweep_seg fs
        (u.db.collections.filterMap (fun r =>
          (u.db.folders.find? (fun f => f.id = r.folder_id)).map
            (fun f => (r.collection_name, r.folder_id, f.folder_path)))) u
      split
      · rw [hT, hu]
        simpa using hTok
      · obtain ⟨seg, hseg, hok⟩ := cleanDBTx_seg fs ops _
        rw [hseg, hT, hu]
        simpa using segmentedShape_append hTok (segmentedShape_single hok)
  · unfold changeChunkSize
    dsimp only
    split
    · rw [hv]
      exact segmentedShape_nil
    · split
      · show SegmentedShape ({ v with chunkSize := newSize } : SysState).trace
        rw [show ({ v with chunkSize := newSize } : SysState).trace = v.trace
          from rfl, hv]
        exact segmentedShape_nil
      · obtain ⟨seg, hseg, hok⟩ := cleanDBTx_seg (fun _ => false) ops
          { v with chunkSize := newSize }
        rw [hseg]
        rw [show ({ v with chunkSize := newSize } : SysState).trace = v.trace
          from rfl, hv]
        simpa using segmentedShape_single hok

/-- Witness for the amended C2 theorem at a concrete stale-rescan tick, a
concrete sole-referent folder removal, a cleanup whose only folder directory
vanished, and a chunk-size change over the same store. -/
theorem batch_vector_trace_shape_witness :
    traceShapeOk (scanQueueBatch 10 scanC2Start).2.trace = true ∧
      traceShapeOk (removeFolderInternal "Y" 1 scanC2Start).trace = true ∧
      SegmentedShape (cleanDB (fun _ => false) cleanOpsOk scanC2Start).trace ∧
      SegmentedShape (changeChunkSize 123 cleanOpsOk scanC2Start).trace :=
  batch_vector_trace_shape 10 scanC2Start scanC2Start scanC2Start scanC2Start
    "Y" 1 (fun _ => false) cleanOpsOk 123 rfl rfl rfl rfl

/-! ### C3: chunkStream emission boundaries (database.cpp lines 829-895) -/

theorem wordsOfAux_nil (fuel : Nat) : wordsOfAux fuel [] = [] := by
  cases fuel <;> simp [wordsOfAux]

theorem wordsOfAux_congr : ∀ (f1 : Nat) (s : List Char) (f2 : Nat),
    s.length ≤ f1 → s.length ≤ f2 → wordsOfAux f1 s = wordsOfAux f2 s := by
  intro f1
  induction f1 with
  | zero =>
    intro s f2 h1 _
    have : s = [] := by
      cases s with
      | nil => rfl
      | cons a t => simp at h1
    subst this
    rw [wordsOfAux_nil, wordsOfAux_nil]
  | succ n ih =>
    intro s f2 h1 h2
    rcases Decidable.em (s = []) with hs | hs
    · subst hs
      rw [wordsOfAux_nil, wordsOfAux_nil]
    · have hlen : 1 ≤ s.length := by
        cases s with
        | nil => exact absurd rfl hs
        | cons a t => simp
      rcases f2 with _ | m
      · omega
      · have hse : s.isEmpty = false := by
          cases s with
          | nil => exact absurd rfl hs
          | cons a t => rfl
        rw [wordsOfAux, wordsOfAux]
        simp only [hse, Bool.false_eq_true, if_false]
        have hrest := readWord_rest_lt s hs
        rw [ih (readWord s).2 m (by omega) (by omega)]

theorem wordsOfAux_eq (fuel : Nat) (s : List Char) (h : s.length ≤ fuel) :
    wordsOfAux fuel s = wordsOf s :=
  wordsOfAux_congr fuel s s.length h (Nat.le_refl _)

theorem wordsOf_step (s : List Char) (hs : s ≠ []) :
    wordsOf s =
      (if (readWord s).1.isEmpty then [] else [String.mk (readWord s).1]) ++
        wordsOf (readWord s).2 := by
  have hse : s.isEmpty = false := by
    cases s with
    | nil => exact absurd rfl hs
    | cons a t => rfl
  have hlen : 1 ≤ s.length := by
    cases s with
    | nil => exact absurd rfl hs
    | cons a t => simp
  rcases hl : s.length with _ | k
  · omega
  · unfold wordsOf
    rw [hl, wordsOfAux]
    simp only [hse, Bool.false_eq_true, if_false]
    have hrest := readWord_rest_lt s hs
    rw [wordsOfAux_eq k (readWord s).2 (by omega)]
    rfl

theorem chunkCoreAux_sound (fuel : Nat) (cs : Int) (mx : Nat) (s : List Char)
    (cc : Nat) (ws : List String) (ck : Nat) :
    ∀ r ∈ (chunkCoreAux fuel cs mx s cc ws ck).1,
      r.text = joinSp r.wordsBuf ∧
        ((r.charCount : Int) + (r.wordsBuf.length : Int) - 1 ≥ cs ∨ r.atEnd = true) := by
  induction fuel, cs, mx, s, cc, ws, ck using chunkCoreAux.induct with
  | case1 cs mx s cc ws ck =>
    intro r hr
    simp [chunkCoreAux] at hr
  | case2 cs mx s cc ws ck fuel hse =>
    intro r hr
    simp [chunkCoreAux, hse] at hr
  | case3 cs mx s cc ws ck fuel hse w rest cc2 ws2 hcond hbrk =>
    intro r hr
    rw [chunkCoreAux] at hr
    rw [if_neg hse] at hr
    dsimp only at hr
    rw [if_pos hcond, if_pos hbrk] at hr
    simp only [List.mem_singleton] at hr
    subst hr
    exact ⟨rfl, hcond⟩
  | case4 cs mx s cc ws ck fuel hse w rest cc2 ws2 hcond hbrk ih =>
    intro r hr
    rw [chunkCoreAux] at hr
    rw [if_neg hse] at hr
    dsimp only at hr
    rw [if_pos hcond, if_neg hbrk] at hr
    simp only [List.mem_cons] at hr
    rcases hr with hr | hr
    · subst hr
      exact ⟨rfl, hcond⟩
    · exact ih r hr
  | case5 cs mx s cc ws ck fuel hse w rest cc2 ws2 hcond ih =>
    intro r hr
    rw [chunkCoreAux] at hr
    rw [if_neg hse] at hr
    dsimp only at hr
    rw [if_neg hcond] at hr
    exact ih r hr

theorem chunkCoreAux_words (fuel : Nat) (cs : Int) (mx : Nat) (s : List Char)
    (cc : Nat) (ws : List String) (ck : Nat) :
    mx = 0 → s.length ≤ fuel → (s = [] → ws = []) →
    ((chunkCoreAux fuel cs mx s cc ws ck).1.map EmitRec.wordsBuf).flatten = ws ++ wordsOf s := by
  induction fuel, cs, mx, s, cc, ws, ck using chunkCoreAux.induct with
  | case1 cs mx s cc ws ck =>
    intro hmx hf hws
    have hs : s = [] := by
      cases s with
      | nil => rfl
      | cons a t => simp at hf
    subst hs
    simp [chunkCoreAux, hws rfl, wordsOf, wordsOfAux_nil]
  | case2 fuel cs mx s cc ws ck hse =>
    intro hmx hf hws
    have hs : s = [] := by
      cases s with
      | nil => rfl
      | cons a t => simp at hse
    subst hs
    simp [chunkCoreAux, hws rfl, wordsOf, wordsOfAux_nil]
  | case3 fuel cs mx s cc ws ck hse w rest cc2 ws2 hcond hbrk =>
    intro hmx hf hws
    subst hmx
    exact absurd hbrk (by simp)
  | case4 fuel cs mx s cc ws ck hse w rest cc2 ws2 hcond hbrk ih =>
    intro hmx hf hws
    have hsne : s ≠ [] := by
      intro h
      subst h
      simp at hse
    have hrest : rest.length < s.length := readWord_rest_lt s hsne
    have hrec := ih hmx (by omega) (fun _ => rfl)
    have heq : chunkCoreAux (fuel + 1) cs mx s cc ws ck =
        (⟨joinSp ws2, ws2, cc2, rest.isEmpty⟩ ::
            (chunkCoreAux fuel cs mx rest 0 [] (ck + 1)).1,
          (chunkCoreAux fuel cs mx rest 0 [] (ck + 1)).2) := by
      rw [chunkCoreAux, if_neg hse]
      dsimp only
      rw [if_pos hcond, if_neg hbrk]
    rw [heq]
    simp only [List.map_cons, List.flatten_cons]
    rw [hrec]
    have hstep : wordsOf s =
        (if w.isEmpty then [] else [String.mk w]) ++ wordsOf rest :=
      wordsOf_step s hsne
    rw [hstep]
    have hws2 : ws2 = if w.isEmpty = true then ws else ws ++ [String.mk w] := rfl
    rw [hws2]
    by_cases hw : w.isEmpty = true <;> simp [hw]
  | case5 fuel cs mx s cc ws ck hse w rest cc2 ws2 hcond ih =>
    intro hmx hf hws
    have hsne : s ≠ [] := by
      intro h
      subst h
      simp at hse
    have hrest : rest.length < s.length := readWord_rest_lt s hsne
    have hre : rest.isEmpty ≠ true := fun h => hcond (Or.inr h)
    have hrne : rest ≠ [] := by
      intro h
      exact hre (by simp [h])
    have hrec := ih hmx (by omega) (fun h => absurd h hrne)
    have heq : chunkCoreAux (fuel + 1) cs mx s cc ws ck =
        chunkCoreAux fuel cs mx rest cc2 ws2 ck := by
      rw [chunkCoreAux, if_neg hse]
      dsimp only
      rw [if_neg hcond]
    rw [heq, hrec]
    have hstep : wordsOf s =
        (if w.isEmpty then [] else [String.mk w]) ++ wordsOf rest :=
      wordsOf_step s hsne
    rw [hstep]
    have hws2 : ws2 = if w.isEmpty = true then ws else ws ++ [String.mk w] := rfl
    rw [hws2]
    by_cases hw : w.isEmpty = true <;> simp [hw]

/-- C3: counterexample to the claim that end-of-stream emits a chunk only when
the word buffer is non-empty. On input "ab " with chunk size 2, the loop first
emits "ab"; the trailing space makes the stream non-atEnd at that point, so the
loop runs once more, reads an empty word, and the end-of-stream test fires with
an EMPTY buffer, emitting a second chunk with empty text and empty word list
(database.cpp lines 858-876 do not test the buffer before emitting). -/
theorem chunkStream_emptyChunk_at_eos :
    chunkCore 2 0 "ab ".data 0 [] 0 =
        ([⟨"ab", ["ab"], 2, false⟩, ⟨"", [], 0, true⟩], []) ∧
      ((chunkCore 2 0 "ab ".data 0 [] 0).1.getLast?.map EmitRec.wordsBuf) =
        some [] := by
  decide

/-- C3 (amended): every chunk emitted by the chunkStream word loop has text
equal to its buffered words joined by single spaces, and is emitted only when
the running character count plus (word count - 1) reaches the chunk size or
end-of-stream is reached — where the end-of-stream emission may carry an empty
buffer, unlike the spec sentence. When no chunk limit is in force the emitted
word buffers concatenate to exactly the whitespace-split words of the input, so
buffers are reset after each emission and no word is dropped or duplicated. -/
theorem chunkStream_emission_spec (cs : Int) (mx : Nat) (input : List Char) :
    (∀ r ∈ (chunkCore cs mx input 0 [] 0).1,
        r.text = joinSp r.wordsBuf ∧
          ((r.charCount : Int) + (r.wordsBuf.length : Int) - 1 ≥ cs ∨
            r.atEnd = true)) ∧
      (mx = 0 →
        ((chunkCore cs mx input 0 [] 0).1.map EmitRec.wordsBuf).flatten =
          wordsOf input) := by
  constructor
  · exact chunkCoreAux_sound input.length cs mx input 0 [] 0
  · intro hmx
    exact chunkCoreAux_words input.length cs mx input 0 [] 0 hmx le_rfl
      (fun _ => rfl)

/-- Witness for the amended C3 theorem at chunk size 10 on a concrete input,
with the word partition evaluated on both sides. -/
theorem chunkStream_emission_spec_witness :
    ((chunkCore 10 0 "alpha beta".data 0 [] 0).1.map EmitRec.wordsBuf).flatten =
        wordsOf "alpha beta".data ∧
      wordsOf "alpha beta".data = ["alpha", "beta"] :=
  ⟨(chunkStream_emission_spec 10 0 "alpha beta".data).2 rfl, by decide⟩

/-! ### C4: zero-page PDF (database.cpp lines 1137-1173) -/

/-- Filesystem view of a readable PDF that loads fine but reports zero
pages. -/
def pdfEnv0 (path : String) (ops : DbOps) : DocEnv :=
  ⟨true, true, 111, path, "f.pdf", 50, .pdf true 0 [] "" "" "" "", ops⟩

/-- Queued zero-page PDF document. -/
def scanC4Job : DocumentInfo := ⟨1, pdfEnv0 "/d/f.pdf" dbOpsOk, 0, 0, false⟩

/-- Engine state holding only scanC4Job, over an empty DB. -/
def scanC4Start : SysState := ⟨emptyDb, none, [], [(1, [scanC4Job])], [], 500, []⟩

/-- C4: the spec says a zero-page PDF is skipped without inserting any chunk
and processing completes without error, but after a successful load the code
computes the per-page byte budget bytes / doc.pageCount() (database.cpp line
1146) before any page-count test; for a zero-page PDF this is an integer
division by zero — undefined behaviour, modelled as the crash outcome.  On a
queue holding one freshly loaded zero-page PDF the scan pass crashes rather
than skipping the file; no chunk row exists at the crash point, but the
documents row has already landed. -/
theorem zeroPagePdf_crashes :
    (scanQueue scanC4Start []).1 = ScanOutcome.crash ∧
      (scanQueue scanC4Start []).2.1.db.chunks = [] ∧
      (scanQueue scanC4Start []).2.1.db.documents.length = 1 := by
  decide

/-! ### C5 and C10: removeFolderInternal (database.cpp lines 1510-1573) -/

theorem qGet_eq_nil_of_not_contains (m : List (Int × List DocumentInfo)) (k : Int)
    (h : qContains m k = false) : qGet m k = [] := by
  unfold qGet
  cases hf : m.find? (fun e => e.1 = k) with
  | none => rfl
  | some e =>
    exfalso
    have he := List.find?_some hf
    have hm := List.mem_of_find?_eq_some hf
    unfold qContains at h
    rw [List.any_eq_false] at h
    exact absurd he (by simpa using h e hm)

theorem qContains_qErase (m : List (Int × List DocumentInfo)) (k : Int) :
    qContains (qErase m k) k = false := by
  unfold qContains qErase
  rw [List.any_eq_false]
  intro e he
  have := (List.mem_filter.1 he).2
  simpa using this

theorem rfdq_qGet (fid : Int) (s : SysState) :
    qGet (removeFolderFromDocumentQueue fid s).docsToScan fid = [] := by
  unfold removeFolderFromDocumentQueue
  split
  · exact qGet_eq_nil_of_not_contains _ _ (qContains_qErase s.docsToScan fid)
  · rename_i h
    exact qGet_eq_nil_of_not_contains _ _ (by simpa using h)

theorem vecRemoveAll_docs : ∀ (l : List Int) (s : SysState),
    (vecRemoveAll l s).docsToScan = s.docsToScan := by
  intro l
  induction l with
  | nil => intro s; rfl
  | cons c rest ih => intro s; rw [vecRemoveAll]; exact ih _

theorem removeFolderCascade_spec (fid : Int) (s : SysState) :
    (removeFolderCascade fid s).db.chunks =
        s.db.chunks.filter (fun c =>
          !(((s.db.documents.filter (fun d => d.folder_id = fid)).map
              (fun d => d.id)).contains c.document_id)) ∧
      (removeFolderCascade fid s).db.chunks_fts =
        s.db.chunks_fts.filter (fun c =>
          !(((s.db.documents.filter (fun d => d.folder_id = fid)).map
              (fun d => d.id)).contains c.document_id)) ∧
      (removeFolderCascade fid s).db.documents =
        s.db.documents.filter (fun d =>
          !(((s.db.documents.filter (fun d2 => d2.folder_id = fid)).map
              (fun d2 => d2.id)).contains d.id)) ∧
      (removeFolderCascade fid s).db.folders =
        s.db.folders.filter (fun f => !(f.id = fid)) ∧
      (removeFolderCascade fid s).db.collections = s.db.collections ∧
      (removeFolderCascade fid s).pendingTx = none ∧
      qGet (removeFolderCascade fid s).docsToScan fid = [] ∧
      (∀ v, v ∈ (removeFolderCascade fid s).vec ↔
        v ∈ s.vec ∧ ¬∃ c ∈ s.db.chunks, c.chunk_id = v ∧
          c.document_id ∈ (s.db.documents.filter (fun d => d.folder_id = fid)).map
            (fun d => d.id)) ∧
      ((∃ c ∈ s.db.chunks, c.document_id ∈
          (s.db.documents.filter (fun d => d.folder_id = fid)).map (fun d => d.id)) →
        (removeFolderCascade fid s).trace.getLast? = some Event.vecSave) := by
  unfold removeFolderCascade
  dsimp only
  obtain ⟨hqdb, hqtr, hqvec, hqtx⟩ := rfdq_frame fid s
  rw [hqdb]
  have hrl1 := removeDocsLoop_chunks
    ((s.db.documents.filter (fun d => d.folder_id = fid)).map (fun d => d.id))
    (removeFolderFromDocumentQueue fid s) []
  have hrl2 := removeDocsLoop_fts
    ((s.db.documents.filter (fun d => d.folder_id = fid)).map (fun d => d.id))
    (removeFolderFromDocumentQueue fid s) []
  have hrl3 := removeDocsLoop_documents
    ((s.db.documents.filter (fun d => d.folder_id = fid)).map (fun d => d.id))
    (removeFolderFromDocumentQueue fid s) []
  have hrlc := removeDocsLoop_ctr_mem
    ((s.db.documents.filter (fun d => d.folder_id = fid)).map (fun d => d.id))
    (removeFolderFromDocumentQueue fid s) []
  rw [hqdb] at hrl1 hrl2 hrl3 hrlc
  obtain ⟨hf1, hf2, hf3, hf4, hf5⟩ := removeDocsLoop_frame
    ((s.db.documents.filter (fun d => d.folder_id = fid)).map (fun d => d.id))
    (removeFolderFromDocumentQueue fid s) []
  refine ⟨?_, ?_, ?_, ?_, ?_, ?_, ?_, ?_, ?_⟩
  · split <;>
      · simp only [txCommit]
        (try dsimp only)
        rw [(vecRemoveAll_spec _ _).2.2.1]
        (try dsimp only)
        exact hrl1
  · split <;>
      · simp only [txCommit]
        (try dsimp only)
        rw [(vecRemoveAll_spec _ _).2.2.1]
        (try dsimp only)
        exact hrl2
  · split <;>
      · simp only [txCommit]
        (try dsimp only)
        rw [(vecRemoveAll_spec _ _).2.2.1]
        (try dsimp only)
        exact hrl3
  · split <;>
      · simp only [txCommit]
        (try dsimp only)
        rw [(vecRemoveAll_spec _ _).2.2.1]
        (try dsimp only)
        rw [hf1, hqdb]
  · split <;>
      · simp only [txCommit]
        (try dsimp only)
        rw [(vecRemoveAll_spec _ _).2.2.1]
        (try dsimp only)
        rw [hf2, hqdb]
  · split <;> rfl
  · split <;>
      · simp only [txCommit]
        (try dsimp only)
        rw [vecRemoveAll_docs]
        (try dsimp only)
        rw [hf5]
        exact rfdq_qGet fid s
  · intro v
    have hmem := hrlc v
    simp only [List.not_mem_nil, false_or] at hmem
    split <;>
      · simp only [txCommit]
        (try dsimp only)
        rw [(vecRemoveAll_spec _ _).2.2.2]
        (try dsimp only)
        rw [hf3, hqvec]
        rw [List.mem_filter]
        constructor
        · rintro ⟨h1, h2⟩
          refine ⟨h1, ?_⟩
          intro hex
          rw [← hmem] at hex
          simp [hex] at h2
        · rintro ⟨h1, h2⟩
          refine ⟨h1, ?_⟩
          rw [← hmem] at h2
          simpa using h2
  · intro hex
    have hne : ¬((removeDocsLoop
        ((s.db.documents.filter (fun d => d.folder_id = fid)).map (fun d => d.id))
        (removeFolderFromDocumentQueue fid s) []).2.isEmpty = true) := by
      obtain ⟨c, hc, hcd⟩ := hex
      have : c.chunk_id ∈ (removeDocsLoop
          ((s.db.documents.filter (fun d => d.folder_id = fid)).map (fun d => d.id))
          (removeFolderFromDocumentQueue fid s) []).2 := by
        rw [hrlc]
        exact Or.inr ⟨c, hc, rfl, hcd⟩
      intro hemp
      rw [List.isEmpty_iff] at hemp
      rw [hemp] at this
      exact List.not_mem_nil _ this
    rw [if_neg hne]
    simp only [txCommit]
    (try dsimp only)
    rw [List.getLast?_concat]


/-- C5: counterexample to the claim that, when at least one other collection
still references the folder, only the association row is removed and the
documents and chunks stay.  Folder 1 is referenced solely by collection X;
removeFolder is called for collection Y.  After the (no-op) association delete
collection X still references the folder, yet the branch condition counts the
association rows BEFORE the delete (1, not more than 1) and cascades: all
documents, chunks and the folder row are gone while the X association row
survives. -/
theorem removeFolder_nonReferent_cascades :
    (removeFolderInternal "Y" 1 scanC2Start).db.collections =
        scanC2Start.db.collections ∧
      scanC2Start.db.collections.length = 1 ∧
      scanC2Start.db.collections.map (fun r => r.folder_id) = [1] ∧
      scanC2Start.db.documents ≠ [] ∧
      (removeFolderInternal "Y" 1 scanC2Start).db.documents = [] ∧
      (removeFolderInternal "Y" 1 scanC2Start).db.chunks = [] ∧
      (removeFolderInternal "Y" 1 scanC2Start).db.folders = [] := by
  decide

/-- C5 (amended): removeFolderInternal branches on the number of collection
rows referencing the folder counted BEFORE the association delete, not on
whether another collection still references it afterwards.  When that count
exceeds one, only the named (collection, folder_id) association row is
removed and documents, chunks, FTS rows, folders, the vector index and the
scan queue are untouched.  When the count is at most one — even if the one
existing association belongs to a different collection — the cascade runs:
the folder queue is dropped, the chunks and FTS rows of the documents of
the folder are deleted, the documents are deleted, the folder row is deleted, the corresponding
vector-index entries are removed, and the index is persisted exactly when
some chunk was removed. -/
theorem removeFolder_branches (collection : String) (fid : Int) (s : SysState) :
    ((s.db.collections.filter (fun r => r.folder_id = fid)).length > 1 →
      (removeFolderInternal collection fid s).db.collections =
          s.db.collections.filter
            (fun r => !(r.collection_name = collection && r.folder_id = fid)) ∧
        (removeFolderInternal collection fid s).db.documents = s.db.documents ∧
        (removeFolderInternal collection fid s).db.chunks = s.db.chunks ∧
        (removeFolderInternal collection fid s).db.chunks_fts = s.db.chunks_fts ∧
        (removeFolderInternal collection fid s).db.folders = s.db.folders ∧
        (removeFolderInternal collection fid s).vec = s.vec ∧
        (removeFolderInternal collection fid s).docsToScan = s.docsToScan ∧
        (removeFolderInternal collection fid s).pendingTx = none) ∧
    ((s.db.collections.filter (fun r => r.folder_id = fid)).length ≤ 1 →
      (removeFolderInternal collection fid s).db.chunks =
          s.db.chunks.filter (fun c =>
            !(((s.db.documents.filter (fun d => d.folder_id = fid)).map
                (fun d => d.id)).contains c.document_id)) ∧
        (removeFolderInternal collection fid s).db.chunks_fts =
          s.db.chunks_fts.filter (fun c =>
            !(((s.db.documents.filter (fun d => d.folder_id = fid)).map
                (fun d => d.id)).contains c.document_id)) ∧
        (removeFolderInternal collection fid s).db.documents =
          s.db.documents.filter (fun d =>
            !(((s.db.documents.filter (fun d2 => d2.folder_id = fid)).map
                (fun d2 => d2.id)).contains d.id)) ∧
        (removeFolderInternal collection fid s).db.folders =
          s.db.folders.filter (fun f => !(f.id = fid)) ∧
        (removeFolderInternal collection fid s).db.collections =
          s.db.collections.filter
            (fun r => !(r.collection_name = collection && r.folder_id = fid)) ∧
        (removeFolderInternal collection fid s).pendingTx = none ∧
        qGet (removeFolderInternal collection fid s).docsToScan fid = [] ∧
        (∀ v, v ∈ (removeFolderInternal collection fid s).vec ↔
          v ∈ s.vec ∧ ¬∃ c ∈ s.db.chunks, c.chunk_id = v ∧
            c.document_id ∈ (s.db.documents.filter (fun d => d.folder_id = fid)).map
              (fun d => d.id)) ∧
        ((∃ c ∈ s.db.chunks, c.document_id ∈
            (s.db.documents.filter (fun d => d.folder_id = fid)).map (fun d => d.id)) →
          (removeFolderInternal collection fid s).trace.getLast? =
            some Event.vecSave)) := by
  constructor
  · intro h
    unfold removeFolderInternal
    dsimp only
    rw [if_pos (by simpa [List.length_map] using h)]
    exact ⟨rfl, rfl, rfl, rfl, rfl, rfl, rfl, rfl⟩
  · intro h
    unfold removeFolderInternal
    dsimp only
    rw [if_neg (by simpa [List.length_map] using Nat.not_lt.2 h)]
    exact ⟨(removeFolderCascade_spec fid _).1, (removeFolderCascade_spec fid _).2.1,
      (removeFolderCascade_spec fid _).2.2.1, (removeFolderCascade_spec fid _).2.2.2.1,
      (removeFolderCascade_spec fid _).2.2.2.2.1, (removeFolderCascade_spec fid _).2.2.2.2.2.1,
      (removeFolderCascade_spec fid _).2.2.2.2.2.2.1,
      (removeFolderCascade_spec fid _).2.2.2.2.2.2.2.1,
      fun hex => (removeFolderCascade_spec fid _).2.2.2.2.2.2.2.2 hex⟩


/-- Witness for the amended C5 theorem: the sole-referent removal of
collection X from folder 1 cascades into deleting the chunks of the folder. -/
theorem removeFolder_branches_witness :
    (scanC2Start.db.collections.filter (fun r => r.folder_id = 1)).length ≤ 1 ∧
      (removeFolderInternal "X" 1 scanC2Start).db.chunks =
        scanC2Start.db.chunks.filter (fun c =>
          !(((scanC2Start.db.documents.filter (fun d => d.folder_id = 1)).map
              (fun d => d.id)).contains c.document_id)) :=
  ⟨by decide, ((removeFolder_branches "X" 1 scanC2Start).2 (by decide)).1⟩

/-- C10: when the collections table holds exactly one association row for the
folder and that row belongs to a DIFFERENT collection than the one named in
the call, the association delete matches nothing — the collections table is
unchanged — and yet the sole-referent check, having counted the pre-existing
association rows (one, not more than one), still cascades: the folder row,
all its documents and all their chunks are deleted. -/
theorem removeFolder_soleAssoc_cascades (collection : String) (fid : Int) (s : SysState)
    (h1 : (s.db.collections.filter (fun r => r.folder_id = fid)).length = 1)
    (h2 : ∀ r ∈ s.db.collections, r.folder_id = fid →
      ¬(r.collection_name = collection)) :
    (removeFolderInternal collection fid s).db.collections = s.db.collections ∧
      (removeFolderInternal collection fid s).db.folders =
        s.db.folders.filter (fun f => !(f.id = fid)) ∧
      (removeFolderInternal collection fid s).db.documents =
        s.db.documents.filter (fun d =>
          !(((s.db.documents.filter (fun d2 => d2.folder_id = fid)).map
              (fun d2 => d2.id)).contains d.id)) ∧
      (removeFolderInternal collection fid s).db.chunks =
        s.db.chunks.filter (fun c =>
          !(((s.db.documents.filter (fun d => d.folder_id = fid)).map
              (fun d => d.id)).contains c.document_id)) ∧
      (∀ d ∈ (removeFolderInternal collection fid s).db.documents,
        ¬(d.folder_id = fid)) := by
  unfold removeFolderInternal
  dsimp only
  rw [if_neg (by simp [List.length_map, h1])]
  refine ⟨?_, ?_, ?_, ?_, ?_⟩
  · rw [(removeFolderCascade_spec fid _).2.2.2.2.1]
    show s.db.collections.filter
        (fun r => !(r.collection_name = collection && r.folder_id = fid)) =
      s.db.collections
    apply List.filter_eq_self.2
    intro r hr
    by_cases hfid : r.folder_id = fid
    · simp [h2 r hr hfid]
    · simp [hfid]
  · exact (removeFolderCascade_spec fid _).2.2.2.1
  · exact (removeFolderCascade_spec fid _).2.2.1
  · exact (removeFolderCascade_spec fid _).1
  · intro d hd
    rw [(removeFolderCascade_spec fid _).2.2.1] at hd
    have hd2 : d ∈ s.db.documents.filter (fun d2 =>
        !(((s.db.documents.filter (fun d3 => d3.folder_id = fid)).map
            (fun d3 => d3.id)).contains d2.id)) := hd
    obtain ⟨hdm, hdp⟩ := List.mem_filter.1 hd2
    intro hfid
    simp at hdp
    exact hdp d hdm hfid rfl

/-- Witness for the C10 theorem: removing collection Y from folder 1, which
is associated only with collection X, leaves the association but deletes the
folder row and its documents. -/
theorem removeFolder_soleAssoc_cascades_witness :
    (scanC2Start.db.collections.filter (fun r => r.folder_id = 1)).length = 1 ∧
      (removeFolderInternal "Y" 1 scanC2Start).db.collections =
        scanC2Start.db.collections ∧
      (removeFolderInternal "Y" 1 scanC2Start).db.folders =
        scanC2Start.db.folders.filter (fun f => !(f.id = 1)) :=
  ⟨by decide, (removeFolder_soleAssoc_cascades "Y" 1 scanC2Start (by decide)
      (by decide)).1,
    (removeFolder_soleAssoc_cascades "Y" 1 scanC2Start (by decide)
      (by decide)).2.1⟩

/-! ### C6: sparse n-gram retrieval (database.cpp lines 239-299) -/

theorem selectChunkLoop_spec (oracle : FtsQuery → List Int) (colls : List String)
    (text : String) (k : Nat) : ∀ n : Nat,
    (n < 3 → selectChunkLoop oracle colls text k n = []) ∧
    (selectChunkLoop oracle colls text k n ≠ [] →
      ∃ N, 3 ≤ N ∧ N ≤ n ∧
        selectChunkLoop oracle colls text k n =
          oracle (mkNgramQuery text N colls k) ∧
        ∀ M, N < M → M ≤ n → oracle (mkNgramQuery text M colls k) = []) := by
  intro n
  induction n with
  | zero =>
    refine ⟨fun _ => rfl, fun h => absurd rfl h⟩
  | succ n ih =>
    constructor
    · intro hlt
      rw [selectChunkLoop]
      rw [if_neg (by omega)]
    · intro hne
      rw [selectChunkLoop] at hne ⊢
      by_cases hgt : n + 1 > 2
      · rw [if_pos hgt] at hne ⊢
        by_cases hrows : (oracle (mkNgramQuery text (n + 1) colls k)).isEmpty
        · rw [if_pos hrows] at hne ⊢
          obtain ⟨N, h3, hle, heq, hmax⟩ := ih.2 hne
          refine ⟨N, h3, by omega, heq, ?_⟩
          intro M hNM hMle
          rcases Nat.lt_or_ge M (n + 1) with hM | hM
          · exact hmax M hNM (by omega)
          · have hMeq : M = n + 1 := by omega
            subst hMeq
            exact List.isEmpty_iff.1 hrows
        · rw [if_neg hrows] at hne ⊢
          refine ⟨n + 1, by omega, le_refl _, rfl, ?_⟩
          intro M hNM hMle
          omega
      · rw [if_neg hgt] at hne
        exact absurd rfl hne

/-- C6: counterexample to the claim that a query of fewer than three words
returns no results.  N_WORDS at database.cpp line 278 splits WITHOUT
Qt::SkipEmptyParts, so the two-word query " a b" (leading space) counts three
raw tokens; the loop therefore runs with N = 3, generateGrams clamps N to the
two punctuation-stripped words and issues 2-gram NEAR phrases, and whatever
the FTS engine returns for them is handed back: with an oracle that returns
chunk 7 for every query, the two-word query returns [7]. -/
theorem sparse_twoWord_returns_results :
    (splitSkipEmpty (removePunct " a b".data)).length = 2 ∧
      (qtSplitWs " a b".data).length = 3 ∧
      selectChunkText (fun _ => [7]) ["c"] " a b" 5 = [7] := by
  decide

/-- C6 (amended): the sparse fallback runs n-gram queries for N descending
from the RAW whitespace-token count of the query (empty tokens included,
unlike the word count the spec names) down to 3, and returns the oracle rows
of the first N that yields any hit — every larger N yielded none; when the
raw token count is below three the loop never runs and the result is empty
without error. -/
theorem selectChunk_spec (oracle : FtsQuery → List Int) (colls : List String)
    (text : String) (k : Nat) :
    ((qtSplitWs text.data).length < 3 →
      selectChunkText oracle colls text k = []) ∧
    (selectChunkText oracle colls text k ≠ [] →
      ∃ N, 3 ≤ N ∧ N ≤ (qtSplitWs text.data).length ∧
        selectChunkText oracle colls text k =
          oracle (mkNgramQuery text N colls k) ∧
        ∀ M, N < M → M ≤ (qtSplitWs text.data).length →
          oracle (mkNgramQuery text M colls k) = []) :=
  selectChunkLoop_spec oracle colls text k (qtSplitWs text.data).length

/-- Witness for the amended C6 theorem: a plain two-word query has raw token
count 2 and returns nothing even when the FTS oracle would report a hit for
any query. -/
theorem selectChunk_spec_witness :
    (qtSplitWs "a b".data).length < 3 ∧
      selectChunkText (fun _ => [7]) ["c"] "a b" 5 = [] :=
  ⟨by decide, (selectChunk_spec (fun _ => [7]) ["c"] "a b" 5).1 (by decide)⟩

/-! ### C7: PDF page re-enqueueing (database.cpp lines 1145-1173) -/

/-- The docsToScan queue map is untouched by the chunking helpers: they write
only to the DB, the trace and the embedding buffer. -/
theorem docs_sendChunkList (s : SysState) :
    (sendChunkList s).docsToScan = s.docsToScan := rfl

theorem docs_appendChunk (c : EmbeddingChunk) (s : SysState) :
    (appendChunk c s).docsToScan = s.docsToScan := by
  unfold appendChunk
  dsimp only
  split <;> rfl

theorem docs_scheduleNext (f : Int) (n : Nat) (s : SysState) :
    (scheduleNext f n s).docsToScan = s.docsToScan := by
  unfold scheduleNext
  split <;> rfl

theorem docs_addChunkOp (out : ChunkInsOut) (document_id : Int)
    (chunk_text file title author subject keywords : String) (page : Int)
    (wordCount : Nat) (s : SysState) :
    (addChunkOp out document_id chunk_text file title author subject keywords
      page wordCount s).1.docsToScan = s.docsToScan := by
  unfold addChunkOp
  dsimp only
  split
  · split <;> rfl
  · rfl

theorem docs_chunkEmitStep (outs : List ChunkInsOut) (folder_id document_id : Int)
    (file title author subject keywords : String) (page : Int)
    (st : SysState) (p : Nat × EmitRec) :
    (chunkEmitStep outs folder_id document_id file title author subject keywords
      page st p).docsToScan = st.docsToScan := by
  unfold chunkEmitStep
  dsimp only
  rw [docs_appendChunk, docs_addChunkOp]

theorem docs_foldl (f : SysState → Nat × EmitRec → SysState)
    (h : ∀ st p, (f st p).docsToScan = st.docsToScan) :
    ∀ (l : List (Nat × EmitRec)) (st : SysState),
      (l.foldl f st).docsToScan = st.docsToScan := by
  intro l
  induction l with
  | nil => intro st; rfl
  | cons p rest ih =>
    intro st
    rw [List.foldl_cons, ih, h]

theorem docs_chunkStreamDb (s : SysState) (outs : List ChunkInsOut)
    (folder_id document_id : Int) (file title author subject keywords : String)
    (page : Int) (maxChunks : Nat) (input : List Char) :
    (chunkStreamDb s outs folder_id document_id file title author subject
      keywords page maxChunks input).1.docsToScan = s.docsToScan := by
  unfold chunkStreamDb
  dsimp only
  exact docs_foldl _ (docs_chunkEmitStep outs folder_id document_id file title
    author subject keywords page) _ s


/-- Filesystem view of a readable one-page PDF. -/
def pdfEnv1 (path : String) (ops : DbOps) : DocEnv :=
  ⟨true, true, 111, path, "g.pdf", 50,
    .pdf true 1 ["hello world"] "t" "a" "s" "k", ops⟩

/-- Queued one-page PDF document at page 0. -/
def scanC7Job : DocumentInfo := ⟨1, pdfEnv1 "/d/g.pdf" dbOpsOk, 0, 0, false⟩

/-- Engine state holding only scanC7Job, over an empty DB. -/
def scanC7Start : SysState := ⟨emptyDb, none, [], [(1, [scanC7Job])], [], 500, []⟩

/-- C7: counterexample to the claim that a PDF whose processed page was the
last is not re-enqueued.  The test at database.cpp line 1164 is
current_page < pageCount AFTER chunking page current_page, so after chunking
page 0 of a one-page PDF (its only and hence last page) the test 0 < 1 still
holds and the document IS re-enqueued, at the front, with current_page = 1;
only the following round, which chunks the out-of-range page 1 as empty text,
drops it. -/
theorem pdf_lastPage_reenqueued :
    scanC7Job.currentPage = 0 ∧
      scanC7Job.env.kind = DocKind.pdf true 1 ["hello world"] "t" "a" "s" "k" ∧
      (scanQueue scanC7Start []).2.1.docsToScan =
        [(1, [{ scanC7Job with currentPage := 1,
                               currentlyProcessing := true }])] := by
  decide

/-- C7 (amended): after chunking page current_page of a loaded PDF with a
non-zero page count, the document is re-enqueued at the front of the queue of
its folder with current_page incremented exactly when current_page < page
count BEFORE the increment — a test that still succeeds on the last page, so
every PDF gets one extra (empty) round at page index pageCount; the pass
reports success either way. -/
theorem pdf_reenqueue_iff (info : DocumentInfo) (s : SysState) (folder_id : Int)
    (cff : Nat) (did : Int) (ctr : List Int) (pc : Nat) (pages : List String)
    (t a sub kw : String)
    (hk : info.env.kind = DocKind.pdf true pc pages t a sub kw) (hpc : pc ≠ 0) :
    (scanDispatch info s folder_id cff did ctr).2.1.docsToScan =
      (if info.currentPage < pc then
        qSet s.docsToScan info.folder
          ({ info with currentPage := info.currentPage + 1,
                       currentlyProcessing := true } ::
            qGet s.docsToScan info.folder)
      else s.docsToScan) ∧
    (scanDispatch info s folder_id cff did ctr).1 = ScanOutcome.ok true := by
  unfold scanDispatch
  rw [hk]
  dsimp only
  rw [if_neg (by simp : ¬((!true) = true))]
  rw [if_neg hpc]
  split
  · constructor
    · dsimp only
      rw [docs_scheduleNext]
      unfold enqueueDocumentInternal
      dsimp only
      rw [if_pos rfl, docs_chunkStreamDb]
    · rfl
  · constructor
    · dsimp only
      rw [docs_scheduleNext, docs_chunkStreamDb]
    · rfl

/-- Witness for the amended C7 theorem: dispatching the one-page PDF at page 0
re-enqueues it at the front with current_page 1. -/
theorem pdf_reenqueue_iff_witness :
    (scanDispatch scanC7Job scanC7Start 1 0 1 []).2.1.docsToScan =
        (if scanC7Job.currentPage < 1 then
          qSet scanC7Start.docsToScan scanC7Job.folder
            ({ scanC7Job with currentPage := scanC7Job.currentPage + 1,
                              currentlyProcessing := true } ::
              qGet scanC7Start.docsToScan scanC7Job.folder)
        else scanC7Start.docsToScan) ∧
      (scanDispatch scanC7Job scanC7Start 1 0 1 []).1 = ScanOutcome.ok true :=
  pdf_reenqueue_iff scanC7Job scanC7Start 1 0 1 [] 1 ["hello world"]
    "t" "a" "s" "k" rfl (by decide)

/-! ### C8: unchanged-mtime skip (database.cpp lines 1090-1098) -/

theorem db_sendChunkList (s : SysState) : (sendChunkList s).db = s.db := rfl

theorem db_scheduleNext (f : Int) (n : Nat) (s : SysState) :
    (scheduleNext f n s).db = s.db := by
  unfold scheduleNext
  split <;> rfl

theorem dequeueDoc_db {s0 : SysState} {info : DocumentInfo} {s : SysState}
    (h : dequeueDoc s0 = some (info, s)) : s.db = s0.db := by
  unfold dequeueDoc at h
  split at h
  · exact absurd h (by simp)
  · split at h
    · exact absurd h (by simp)
    · simp only [Option.some.injEq, Prod.mk.injEq] at h
      obtain ⟨-, h2⟩ := h
      rw [← h2]


/-- C8: a dequeued document whose file still exists and is readable, that is
found in the documents table by canonical path, is not mid-processing, and
whose current file mtime equals the stored document_time, is skipped: the
pass reports success, the whole relational store (documents, chunks, FTS
rows and all) is exactly as before the tick dequeued it, and no chunk is
scheduled for removal. -/
theorem unchanged_mtime_skipped (s0 : SysState) (ctr : List Int)
    (info : DocumentInfo) (s : SysState) (d : DocumentRow)
    (hdq : dequeueDoc s0 = some (info, s))
    (hex : info.env.exists_ = true) (hrd : info.env.readable = true)
    (hsel : info.env.ops.selectDocOk = true)
    (hfind : s.db.documents.find?
      (fun d2 => d2.document_path = info.env.canonicalPath) = some d)
    (hcp : info.currentlyProcessing = false)
    (hmt : info.env.mtimeMs = d.document_time) :
    (scanQueue s0 ctr).1 = ScanOutcome.ok true ∧
      (scanQueue s0 ctr).2.1.db = s0.db ∧
      (scanQueue s0 ctr).2.2 = ctr := by
  unfold scanQueue
  rw [hdq]
  dsimp only
  rw [hex, hrd]
  rw [if_neg (by simp)]
  rw [hsel]
  rw [if_neg (by simp)]
  rw [hfind]
  dsimp only
  rw [hcp]
  rw [if_pos (by simp)]
  rw [if_pos hmt]
  exact ⟨rfl, by rw [db_scheduleNext]; exact dequeueDoc_db hdq, rfl⟩


/-- The queued document of scanC2Db requeued with an UNCHANGED mtime. -/
def scanC8Job : DocumentInfo :=
  ⟨1, { txtEnv "/a/f.txt" "hi" dbOpsOk with mtimeMs := 100 }, 0, 0, false⟩

/-- Engine state holding only scanC8Job over the already indexed DB. -/
def scanC8Start : SysState := ⟨scanC2Db, none, [7], [(1, [scanC8Job])], [], 500, []⟩

/-- Witness for the C8 theorem at the concrete unchanged-mtime rescan. -/
theorem unchanged_mtime_skipped_witness :
    (scanQueue scanC8Start []).1 = ScanOutcome.ok true ∧
      (scanQueue scanC8Start []).2.1.db = scanC8Start.db ∧
      (scanQueue scanC8Start []).2.2 = [] :=
  unchanged_mtime_skipped scanC8Start [] scanC8Job
    { scanC8Start with docsToScan := [] } ⟨5, 1, 100, "/a/f.txt"⟩
    (by decide) rfl rfl rfl (by decide) rfl rfl

/-! ### C9: embedding results (database.cpp lines 910-937) -/

/-- Effect of the result loop of handleEmbeddingsGenerated: row by row, a
successful index add appends the chunk id to the vector index (vecAdd then
the has_embedding dbWrite) and sets has_embedding, while a failed add leaves
both stores untouched for that row. -/
theorem applyEmbeddings_spec (addOk : Int → Bool) :
    ∀ (l : List EmbeddingResult) (s : SysState),
    (applyEmbeddings addOk l s).db.chunks =
        s.db.chunks.map (fun c =>
          if l.any (fun e => addOk e.chunk_id && e.chunk_id = c.chunk_id) then
            { c with has_embedding := true }
          else c) ∧
      (applyEmbeddings addOk l s).vec =
        s.vec ++ (l.filter (fun e => addOk e.chunk_id)).map (fun e => e.chunk_id) ∧
      (applyEmbeddings addOk l s).trace =
        s.trace ++ (l.map (fun e =>
          if addOk e.chunk_id then [Event.vecAdd e.chunk_id, Event.dbWrite]
          else [])).flatten ∧
      (applyEmbeddings addOk l s).pendingTx = s.pendingTx := by
  intro l
  induction l with
  | nil =>
    intro s
    refine ⟨?_, by simp [applyEmbeddings], by simp [applyEmbeddings],
      by simp [applyEmbeddings]⟩
    simp [applyEmbeddings]
  | cons e rest ih =>
    intro s
    rw [applyEmbeddings]
    by_cases he : addOk e.chunk_id
    · rw [if_pos he]
      refine ⟨?_, ?_, ?_, by simpa using (ih _).2.2.2⟩
      · rw [(ih _).1]
        dsimp only
        rw [List.map_map]
        apply List.map_congr_left
        intro c _
        simp only [Function.comp]
        by_cases hc : e.chunk_id = c.chunk_id
        · simp [hc.symm, he]
        · have hc2 : ¬(c.chunk_id = e.chunk_id) := fun h => hc h.symm
          simp [hc, hc2]
      · rw [(ih _).2.1]
        dsimp only
        rw [List.filter_cons, if_pos (by simp [he])]
        simp
      · rw [(ih _).2.2.1]
        dsimp only
        rw [List.map_cons, List.flatten_cons]
        rw [if_pos he]
        simp
    · rw [if_neg he]
      obtain ⟨ihc, ihv, iht, ihp⟩ := ih s
      refine ⟨?_, ?_, ?_, ihp⟩
      · rw [ihc]
        apply List.map_congr_left
        intro c _
        rw [List.any_cons]
        have : (addOk e.chunk_id && decide (e.chunk_id = c.chunk_id)) = false := by
          simp [he]
        rw [this]
        simp
      · rw [ihv]
        rw [List.filter_cons, if_neg (by simp [he])]
      · rw [iht]
        rw [List.map_cons, List.flatten_cons]
        rw [if_neg he]
        simp


/-- C9: for a non-empty embedding-result batch, each result with a
successful vector-index add (the vecAdd event precedes the corresponding
dbWrite in the trace) gets has_embedding set on its chunks row; a chunk whose
add fails keeps its row unchanged — has_embedding stays 0 — and contributes
no events; the vector index receives exactly the successfully added ids in
order and is saved once after the whole batch. -/
theorem embeddings_applied_spec (addOk : Int → Bool) (batch : List EmbeddingResult)
    (s : SysState) (hne : batch ≠ []) :
    (handleEmbeddingsGenerated addOk batch s).db.chunks =
        s.db.chunks.map (fun c =>
          if batch.any (fun e => addOk e.chunk_id && e.chunk_id = c.chunk_id) then
            { c with has_embedding := true }
          else c) ∧
      (handleEmbeddingsGenerated addOk batch s).vec =
        s.vec ++ (batch.filter (fun e => addOk e.chunk_id)).map
          (fun e => e.chunk_id) ∧
      (handleEmbeddingsGenerated addOk batch s).trace =
        s.trace ++ ((batch.map (fun e =>
          if addOk e.chunk_id then [Event.vecAdd e.chunk_id, Event.dbWrite]
          else [])).flatten ++ [Event.vecSave]) := by
  unfold handleEmbeddingsGenerated
  rw [if_neg (by simpa using hne)]
  dsimp only
  obtain ⟨hc, hv, ht, -⟩ := applyEmbeddings_spec addOk batch s
  exact ⟨hc, hv, by rw [ht, List.append_assoc]⟩

/-- Index-add oracle that always succeeds. -/
def addOkAll : Int → Bool := fun _ => true

/-- A one-result embedding batch for chunk 7. -/
def embC9Batch : List EmbeddingResult := [⟨1, 7, [1, 2]⟩]

/-- DB whose single chunk 7 is not yet embedded. -/
def embC9Db : DbState :=
  ⟨[⟨1, "/a"⟩], [⟨5, 1, 100, "/a/f.txt"⟩],
    [⟨5, 7, "old", "f.txt", "", "", "", "", -1, -1, -1, 1, 0, false⟩], [],
    [⟨"X", 1, 0, "m", false⟩], 8, 6⟩

/-- Engine state for the embedding-batch witness. -/
def embC9Start : SysState := ⟨embC9Db, none, [], [], [], 500, []⟩

/-- Witness for the C9 theorem on a concrete one-result batch. -/
theorem embeddings_applied_spec_witness :
    embC9Batch ≠ [] ∧
      (handleEmbeddingsGenerated addOkAll embC9Batch embC9Start).vec =
        embC9Start.vec ++ (embC9Batch.filter (fun e => addOkAll e.chunk_id)).map
          (fun e => e.chunk_id) :=
  ⟨by decide,
    (embeddings_applied_spec addOkAll embC9Batch embC9Start (by decide)).2.1⟩
